import Mathlib

set_option maxHeartbeats 1000000

namespace Monikhao

/-!
Shallow embedding of the session/agent state-aggregation core of
`scripts/worker-service.cjs` (the Monikhao worker service): multi-session
state, agent trees, tool-call tracking, statistics and the pruning state
machine.

Modelling conventions:
* JS objects become structures; `undefined`/`null` fields become `Option`.
* The JS `Map`s (sessions, pending tool calls, files) become association
  lists preserving insertion order; `Map.set` replaces in place or appends,
  `Map.delete` removes the entry.
* Millisecond timestamps become `Nat`; `Date.now()` at processing time is
  an explicit `now` parameter.
* Randomness is determinized: `pickAgentName` draws the first available
  name of the pool, colors and shapes take the first list entry, and the
  random unique tool-call id (`tc-${Date.now()}-${random}`) is modelled by
  a fresh counter `tcIdCounter` on the worker state.
* `JSON.stringify` of a payload is abstracted as a `raw : String` field
  carried by the payload, which the worker only measures, scans or
  truncates.
-/

inductive Phase
  | session_start
  | session_end
  | pre
  | post
  | notification
deriving DecidableEq, Repr

inductive SessionStatus
  | active
  | ended
deriving DecidableEq, Repr

inductive AgentType
  | main
  | subagent
deriving DecidableEq, Repr

inductive AgentStatus
  | active
  | completed
deriving DecidableEq, Repr

inductive TCStatus
  | executing
  | completed
  | error
deriving DecidableEq, Repr

/-- The fields of a tool-call input object that the worker reads, plus
`raw`, standing for the JSON-serialized form of the whole object
(`JSON.stringify(input)`), which the worker only measures or truncates,
and `todosLen` for `(input.todos || []).length`. -/
structure ToolInput where
  file_path : Option String := none
  path : Option String := none
  pattern : Option String := none
  content : Option String := none
  old_string : Option String := none
  new_string : Option String := none
  subagent_type : Option String := none
  description : Option String := none
  model : Option String := none
  command : Option String := none
  query : Option String := none
  url : Option String := none
  todosLen : Nat := 0
  raw : String := ""
deriving DecidableEq, Repr

/-- A tool response: `asString = some s` models a string-typed response
(`typeof response === 'string'`); otherwise an object where `isErrorFlag`
models `is_error === true || isError === true`, `errorField` a truthy
`.error` property, `contentText` the joined text of `.content`, and `raw`
the JSON-serialized form. -/
structure ToolResponse where
  asString : Option String := none
  isErrorFlag : Bool := false
  errorField : Bool := false
  contentText : Option String := none
  raw : String := ""
deriving DecidableEq, Repr

/-- An inbound event record as destructured by `processEvent`.
`phase = none` models an unrecognized phase string (the `switch` falls
through and the state is untouched). -/
structure Event where
  phase : Option Phase := none
  timestamp : Option Nat := none
  session_id : Option String := none
  source : Option String := none
  tool_name : Option String := none
  tool_input : Option ToolInput := none
  tool_response : Option ToolResponse := none
  model : Option String := none
  message : Option String := none
deriving DecidableEq, Repr

/-- JS truthiness for string-valued fields: `null`/`undefined` and `""`
are falsy. -/
def truthyStr : Option String → Option String
  | none => none
  | some s => if s.isEmpty then none else some s

/-- JS `a || b` for string-valued expressions. -/
def jsOr (a b : Option String) : Option String :=
  match truthyStr a with
  | some s => some s
  | none => b

/-- JS `s || 'unknown'` for a plain string. -/
def jsOrUnknown (s : String) : String :=
  if s.isEmpty then "unknown" else s

/-- Per-session statistics record (`ss.stats`). -/
structure Stats where
  toolCalls : Nat := 0
  filesAccessed : Nat := 0
  startedAt : Option Nat := none
  estimatedTokens : Nat := 0
  linesAdded : Nat := 0
  linesRemoved : Nat := 0
  turns : Nat := 0
  errors : Nat := 0
deriving DecidableEq, Repr

/-- `carryOverStats`: counters carried over from deleted sessions. -/
structure CarryStats where
  toolCalls : Nat := 0
  filesAccessed : Nat := 0
  estimatedTokens : Nat := 0
  linesAdded : Nat := 0
  linesRemoved : Nat := 0
  turns : Nat := 0
  errors : Nat := 0
deriving DecidableEq, Repr

/-- Fold a session's statistics into the carry-over bucket
(`carryOverStats.x += s.stats.x || 0` for each counter). -/
def addCarry (c : CarryStats) (st : Stats) : CarryStats :=
  { toolCalls := c.toolCalls + st.toolCalls
    filesAccessed := c.filesAccessed + st.filesAccessed
    estimatedTokens := c.estimatedTokens + st.estimatedTokens
    linesAdded := c.linesAdded + st.linesAdded
    linesRemoved := c.linesRemoved + st.linesRemoved
    turns := c.turns + st.turns
    errors := c.errors + st.errors }

structure ToolCall where
  id : Nat
  tool : Option String
  inputSummary : Option String
  outputSummary : Option String
  startedAt : Option Nat
  completedAt : Option Nat
  status : TCStatus
deriving DecidableEq, Repr

structure FileAccess where
  path : String
  accessCount : Nat
  lastAccessed : Option Nat
  tool : Option String
deriving DecidableEq, Repr

/-- Timeline entries; the per-type `data` payload is presentational and is
never read back by the core, so it is not modelled. -/
structure TimelineEntry where
  timestamp : Option Nat
  type : String
  agentId : Nat
deriving DecidableEq, Repr

structure Agent where
  id : Nat
  name : String
  color : String
  shape : String
  type : AgentType
  subagentType : Option String
  model : Option String
  parentId : Option Nat
  sessionId : String
  source : String
  status : AgentStatus
  spawnedAt : Nat
  completedAt : Option Nat
  toolCalls : List ToolCall
  toolCallCount : Nat
  lastResponse : Option String := none
deriving DecidableEq, Repr

structure SessionMeta where
  id : String
  startedAt : Option Nat
  status : SessionStatus
  endedAt : Option Nat := none
  source : String
  model : Option String := none
deriving DecidableEq, Repr

structure SessionState where
  session : SessionMeta
  agents : List Agent
  timeline : List TimelineEntry
  files : List (String × FileAccess)
  stats : Stats
  pendingToolCalls : List (Option String × Nat)
  lastActivity : Option Nat
deriving DecidableEq, Repr

structure WorkerState where
  sessions : List (String × SessionState)
  agentIdCounter : Nat := 0
  tcIdCounter : Nat := 0
  usedNames : List String := []
  carryOver : CarryStats := {}
deriving DecidableEq, Repr

def initialState : WorkerState := { sessions := [] }

/-! ### Association-list operations (insertion-ordered JS `Map`) -/

def alookup {α β : Type} [DecidableEq α] : List (α × β) → α → Option β
  | [], _ => none
  | (k, v) :: rest, k' => if k = k' then some v else alookup rest k'

/-- `Map.set`: replace in place if the key exists, else append. -/
def aset {α β : Type} [DecidableEq α] : List (α × β) → α → β → List (α × β)
  | [], k, v => [(k, v)]
  | (k', v') :: rest, k, v =>
    if k' = k then (k, v) :: rest else (k', v') :: aset rest k v

/-- `Map.delete`: remove the entry with the given key. -/
def aerase {α β : Type} [DecidableEq α] : List (α × β) → α → List (α × β)
  | [], _ => []
  | (k', v') :: rest, k =>
    if k' = k then rest else (k', v') :: aerase rest k

/-- In-place mutation of the value stored under a key. -/
def amodify {α β : Type} [DecidableEq α] (f : β → β) : List (α × β) → α → List (α × β)
  | [], _ => []
  | (k', v') :: rest, k =>
    if k' = k then (k', f v') :: rest else (k', v') :: amodify f rest k

/-! ### Name / color / shape pools -/

def AGENT_NAMES : List String :=
  ["Nova", "Cipher", "Pulse", "Drift", "Flux", "Spark", "Haze", "Bolt",
   "Shade", "Prism", "Ghost", "Rune", "Jinx", "Nyx", "Echo", "Blitz",
   "Vex", "Onyx", "Wren", "Ash", "Hex", "Arc", "Lux", "Sable",
   "Zephyr", "Ember", "Pixel", "Glitch", "Dusk", "Crux", "Iris", "Opal",
   "Volt", "Cobalt", "Radix", "Strobe", "Nebula", "Apex", "Flint", "Sage",
   "Aether", "Nimbus", "Vesper", "Solace", "Quasar", "Tempest", "Wraith", "Spectre",
   "Homie"]

def AGENT_COLORS : List String :=
  ["#ff6b6b", "#ffa06b", "#ffd93d", "#6bff8d", "#6bffd4", "#6bc5ff",
   "#8b6bff", "#d46bff", "#ff6bba", "#ff4081", "#00e5ff", "#76ff03",
   "#ffab40", "#7c4dff", "#18ffff", "#f4ff81", "#ff80ab", "#b388ff",
   "#84ffff", "#ccff90", "#ffe57f", "#a7ffeb", "#ea80fc", "#80d8ff"]

def AGENT_SHAPES : List String :=
  ["sphere", "icosahedron", "octahedron", "dodecahedron", "cube", "torus", "cone"]

/-- `pickAgentName`, determinized: the random draw from the available pool
is modelled as taking its first element (the pool falls back to the full
name list once exhausted); the picked name is added to the used set. -/
def pickAgentName (used : List String) : String × List String :=
  let available := AGENT_NAMES.filter (fun n => decide (¬ n ∈ used))
  let pool := if available.length > 0 then available else AGENT_NAMES
  let name := pool.headD ""
  (name, if name ∈ used then used else used ++ [name])

/-- `pickAgentColor`, determinized to the first color. -/
def pickAgentColor : String := AGENT_COLORS.headD ""

/-- `pickAgentShape`, determinized to the first shape. -/
def pickAgentShape : String := AGENT_SHAPES.headD ""

/-! ### Source detection and event field normalization -/

/-- `detectSource`: explicit `source` wins, else the `oc-` session-id
naming convention implies opencode, anything else claudecode. -/
def detectSource (e : Event) : String :=
  match truthyStr e.source with
  | some s => s
  | none =>
    if (e.session_id.getD "").startsWith "oc-" then "opencode" else "claudecode"

/-- `const sid = session_id || 'unknown'`. -/
def eventSid (e : Event) : String :=
  (truthyStr e.session_id).getD "unknown"

/-! ### Session store -/

def createSessionState (sessionId : String) (timestamp : Option Nat) (source : String) :
    SessionState :=
  { session :=
      { id := sessionId, startedAt := timestamp, status := .active,
        endedAt := none, source := jsOrUnknown source, model := none },
    agents := [], timeline := [], files := [],
    stats := { startedAt := timestamp },
    pendingToolCalls := [], lastActivity := timestamp }

/-- Backfill the source of a session created without one. -/
def backfillSource (source : String) (ss : SessionState) : SessionState :=
  if ¬ source.isEmpty ∧ ss.session.source = "unknown" then
    { ss with session := { ss.session with source := source } }
  else ss

def getOrCreateSession (s : WorkerState) (sessionId : String) (timestamp : Option Nat)
    (source : String) : WorkerState :=
  let sessions1 :=
    if (alookup s.sessions sessionId).isSome then s.sessions
    else aset s.sessions sessionId (createSessionState sessionId timestamp source)
  { s with sessions := amodify (backfillSource source) sessions1 sessionId }

/-- Revive the first `main` agent if it was completed (the mutation done
on `ss.agents.find(a => a.type === 'main')`). -/
def reviveMain : List Agent → List Agent
  | [] => []
  | a :: rest =>
    if a.type = AgentType.main then
      (if a.status = AgentStatus.completed then
        { a with status := .active, completedAt := none }
      else a) :: rest
    else a :: reviveMain rest

/-- Reactivate a session that was auto-ended by the pruner but is getting
new activity; updates last-activity unconditionally. -/
def reactivateIfEnded (ss : SessionState) (timestamp : Option Nat) : SessionState :=
  if ss.session.status = SessionStatus.ended then
    { ss with
      session := { ss.session with status := .active, endedAt := none },
      agents := reviveMain ss.agents,
      lastActivity := timestamp }
  else
    { ss with lastActivity := timestamp }

/-! ### Agent management (per session) -/

def getOrCreateMainAgent (ss : SessionState) (ctr : Nat) (used : List String) (now : Nat) :
    Agent × SessionState × Nat × List String :=
  match ss.agents.find? (fun a => decide (a.type = AgentType.main)) with
  | some m => (m, ss, ctr, used)
  | none =>
    let pick := pickAgentName used
    let m : Agent :=
      { id := ctr, name := pick.1, color := pickAgentColor, shape := pickAgentShape,
        type := .main, subagentType := none, model := none, parentId := none,
        sessionId := ss.session.id, source := jsOrUnknown ss.session.source,
        status := .active, spawnedAt := now, completedAt := none,
        toolCalls := [], toolCallCount := 0 }
    (m, { ss with agents := ss.agents ++ [m] }, ctr + 1, pick.2)

def spawnSubagent (ss : SessionState) (parentId : Nat) (taskInput : Option ToolInput)
    (ctr : Nat) (now : Nat) : Agent × SessionState × Nat :=
  let subType :=
    (truthyStr (taskInput.bind (fun ti => ti.subagent_type))).getD "general-purpose"
  let desc := (truthyStr (taskInput.bind (fun ti => ti.description))).getD "Subagent"
  let a : Agent :=
    { id := ctr, name := desc, color := pickAgentColor, shape := pickAgentShape,
      type := .subagent, subagentType := some subType,
      model := truthyStr (taskInput.bind (fun ti => ti.model)),
      parentId := some parentId, sessionId := ss.session.id,
      source := jsOrUnknown ss.session.source, status := .active, spawnedAt := now,
      completedAt := none, toolCalls := [], toolCallCount := 0 }
  (a, { ss with agents := ss.agents ++ [a] }, ctr + 1)

/-- Index of the last agent with status active (the backwards scan of
`findActiveAgent`). -/
def lastActiveIdx : List Agent → Option Nat
  | [] => none
  | a :: rest =>
    ((lastActiveIdx rest).map (fun i => i + 1)).or
      (if a.status = AgentStatus.active then some 0 else none)

/-- `findActiveAgent`, as an index: most recently appended active agent,
falling back to the first agent, `none` on an empty list. -/
def findActiveAgentIdx (agents : List Agent) : Option Nat :=
  (lastActiveIdx agents).or (if agents.isEmpty then none else some 0)

def findActiveAgent (agents : List Agent) : Option Agent :=
  (findActiveAgentIdx agents).bind (fun i => agents.get? i)

/-- Update the agent at a given position in place. -/
def modifyIdx (f : Agent → Agent) : List Agent → Nat → List Agent
  | [], _ => []
  | a :: rest, 0 => f a :: rest
  | a :: rest, n + 1 => a :: modifyIdx f rest n

/-! ### Token estimation, summaries, error detection -/

/-- `countLines`: newline count plus one for a truthy string, else 0. -/
def countLines (os : Option String) : Nat :=
  match truthyStr os with
  | none => 0
  | some s => (s.toList.filter (fun c => decide (c = '\n'))).length + 1

/-- `estimateTokens` on a tool input object: `ceil(len(stringify)/4)`. -/
def estimateTokensInput : Option ToolInput → Nat
  | none => 0
  | some ti => (ti.raw.length + 3) / 4

/-- `estimateTokens` on a tool response (a string response is measured
directly; `''` is falsy and yields 0). -/
def estimateTokensResp : Option ToolResponse → Nat
  | none => 0
  | some r =>
    match r.asString with
    | some s => if s.isEmpty then 0 else (s.length + 3) / 4
    | none => (r.raw.length + 3) / 4

/-- `truncate(str, max)`: null for falsy input, else cap at `max`
characters with an ellipsis. -/
def truncate (os : Option String) (max : Nat) : Option String :=
  match truthyStr os with
  | none => none
  | some s => some (if s.length > max then s.take max ++ "..." else s)

def summarizeInput (toolName : Option String) (input : Option ToolInput) : Option String :=
  match input with
  | none => none
  | some i =>
    match toolName with
    | some "Read" => truthyStr i.file_path
    | some "Write" => truthyStr i.file_path
    | some "Edit" => some (((truthyStr i.file_path).getD "?") ++ " (edit)")
    | some "Bash" => truncate i.command 120
    | some "Grep" =>
      some ("/" ++ ((truthyStr i.pattern).getD "?") ++ "/ in " ++ ((truthyStr i.path).getD "."))
    | some "Glob" => truthyStr i.pattern
    | some "Task" =>
      some ("[" ++ ((truthyStr i.subagent_type).getD "?") ++ "] " ++ ((truthyStr i.description).getD ""))
    | some "WebSearch" => truthyStr i.query
    | some "WebFetch" => truthyStr i.url
    | some "TodoWrite" => some (toString i.todosLen ++ " items")
    | _ => truncate (some i.raw) 100

def summarizeOutput (_toolName : Option String) (output : Option ToolResponse) : Option String :=
  match output with
  | none => none
  | some r =>
    match r.asString with
    | some s => if s.isEmpty then none else truncate (some s) 200
    | none =>
      match truthyStr r.contentText with
      | some t => truncate (some t) 200
      | none => truncate (some r.raw) 200

def toLowerStr (s : String) : String := s.map Char.toLower

/-- Substring test via `splitOn` (the pattern is always nonempty here). -/
def containsSub (s pat : String) : Bool := decide ((s.splitOn pat).length > 1)

/-- Scan the first ~500 characters of a stringified response for known
failure phrases; responses over ~2000 characters are not scanned. -/
def scanErrorStr (s : String) : Bool :=
  if s.length > 2000 then false
  else
    let lower := toLowerStr (s.take 500)
    containsSub lower "command failed" || containsSub lower "exit code"
      || containsSub lower "error:" || containsSub lower "fatal:"
      || containsSub lower "traceback (most recent"

def detectError : Option ToolResponse → Bool
  | none => false
  | some r =>
    match r.asString with
    | some s => if s.isEmpty then false else scanErrorStr s
    | none => r.isErrorFlag || r.errorField || scanErrorStr r.raw

/-! ### File access tracking and timeline -/

def MAX_TIMELINE_EVENTS : Nat := 1000

def addTimelineEvent (ss : SessionState) (timestamp : Option Nat) (type : String)
    (agentId : Nat) : SessionState :=
  let tl := ss.timeline ++ [{ timestamp := timestamp, type := type, agentId := agentId }]
  { ss with
    timeline := if tl.length > MAX_TIMELINE_EVENTS then tl.drop (tl.length - MAX_TIMELINE_EVENTS) else tl }

/-- The file path recognized by `trackFileAccess` for a tool invocation. -/
def filePathOf (toolName : Option String) (toolInput : Option ToolInput) : Option String :=
  if toolName = some "Read" ∨ toolName = some "Edit" ∨ toolName = some "Write" then
    jsOr (toolInput.bind (fun ti => ti.file_path)) (truthyStr (toolInput.bind (fun ti => ti.path)))
  else if toolName = some "Glob" then truthyStr (toolInput.bind (fun ti => ti.pattern))
  else if toolName = some "Grep" then truthyStr (toolInput.bind (fun ti => ti.path))
  else none

/-- Line-change tracking for Write/Edit (the first half of `trackFileAccess`). -/
def trackLines (ss : SessionState) (toolName : Option String) (toolInput : Option ToolInput) :
    SessionState :=
  if toolName = some "Write" ∧ (truthyStr (toolInput.bind (fun ti => ti.content))).isSome then
    { ss with stats := { ss.stats with
        linesAdded := ss.stats.linesAdded + countLines (toolInput.bind (fun ti => ti.content)) } }
  else if toolName = some "Edit" ∧ toolInput.isSome then
    let oldLines := countLines (toolInput.bind (fun ti => ti.old_string))
    let newLines := countLines (toolInput.bind (fun ti => ti.new_string))
    if newLines > oldLines then
      { ss with stats := { ss.stats with linesAdded := ss.stats.linesAdded + (newLines - oldLines) } }
    else if oldLines > newLines then
      { ss with stats := { ss.stats with linesRemoved := ss.stats.linesRemoved + (oldLines - newLines) } }
    else ss
  else ss

/-- Deduplicated file-path tracking (the second half of `trackFileAccess`). -/
def trackPath (ss1 : SessionState) (toolName : Option String) (filePath : Option String)
    (timestamp : Option Nat) : SessionState :=
  match truthyStr filePath with
  | none => ss1
  | some p =>
    match alookup ss1.files p with
    | some _ =>
      let bump := fun (f : FileAccess) =>
        { f with accessCount := f.accessCount + 1, lastAccessed := timestamp }
      { ss1 with files := amodify bump ss1.files p }
    | none =>
      { ss1 with
        files := ss1.files ++ [(p, { path := p, accessCount := 1, lastAccessed := timestamp, tool := toolName })],
        stats := { ss1.stats with filesAccessed := ss1.stats.filesAccessed + 1 } }

def trackFileAccess (ss : SessionState) (toolName : Option String) (toolInput : Option ToolInput)
    (timestamp : Option Nat) : SessionState :=
  trackPath (trackLines ss toolName toolInput) toolName (filePathOf toolName toolInput) timestamp

/-! ### Event processing -/

/-- The in-place mutation `mainAgent.model = model` on the first main agent. -/
def setMainModel (m : Option String) : List Agent → List Agent
  | [] => []
  | a :: rest =>
    if a.type = AgentType.main then { a with model := m } :: rest
    else a :: setMainModel m rest

/-- First half of `case 'pre'`: reactivation, main-agent creation, model
capture and the Task-spawn branch.  Returns the main agent, the session
state so far and the updated agent-id counter and used names. -/
def preStage1 (e : Event) (now : Nat) (ss0 : SessionState) (aCtr : Nat)
    (used : List String) : Agent × SessionState × Nat × List String :=
  let ss1 := reactivateIfEnded ss0 e.timestamp
  let gm := getOrCreateMainAgent ss1 aCtr used now
  let mainAgent := gm.1
  let ss2 := gm.2.1
  let aCtr1 := gm.2.2.1
  let used1 := gm.2.2.2
  let ss3 :=
    if (truthyStr e.model).isSome ∧ truthyStr mainAgent.model = none then
      { ss2 with
        agents := setMainModel e.model ss2.agents,
        session := { ss2.session with model := e.model } }
    else ss2
  if e.tool_name = some "Task" then
    let sp := spawnSubagent ss3 mainAgent.id e.tool_input aCtr1 now
    (mainAgent, addTimelineEvent sp.2.1 e.timestamp "agent_spawn" sp.1.id, sp.2.2, used1)
  else (mainAgent, ss3, aCtr1, used1)

/-- The fresh tool-call record created by a `pre` event. -/
def newToolCall (e : Event) (tcCtr : Nat) : ToolCall :=
  { id := tcCtr, tool := e.tool_name,
    inputSummary := summarizeInput e.tool_name e.tool_input,
    outputSummary := none, startedAt := e.timestamp, completedAt := none,
    status := .executing }

/-- Second half of `case 'pre'`: the `if (agent)` block recording the new
tool call on the active agent. -/
def preStage2 (e : Event) (tcCtr : Nat) (ss5 : SessionState) : SessionState × Nat :=
  match findActiveAgentIdx ss5.agents with
  | none => (ss5, tcCtr)
  | some idx =>
    let agentId := ((ss5.agents.get? idx).map (fun a => a.id)).getD 0
    let toolCall := newToolCall e tcCtr
    let push := fun (a : Agent) =>
      { a with toolCalls := a.toolCalls ++ [toolCall], toolCallCount := a.toolCallCount + 1 }
    let ss6 := { ss5 with agents := modifyIdx push ss5.agents idx }
    let ss7 :=
      { ss6 with stats := { ss6.stats with
          toolCalls := ss6.stats.toolCalls + 1,
          estimatedTokens := ss6.stats.estimatedTokens + estimateTokensInput e.tool_input } }
    let ss8 := { ss7 with pendingToolCalls := aset ss7.pendingToolCalls e.tool_name tcCtr }
    let ss9 := trackFileAccess ss8 e.tool_name e.tool_input e.timestamp
    (addTimelineEvent ss9 e.timestamp "tool_start" agentId, tcCtr + 1)

/-- The body of `case 'pre'` once the session state has been fetched:
returns the new session state together with the updated agent-id counter,
tool-call-id counter and used-name set. -/
def preBody (e : Event) (now : Nat) (ss0 : SessionState) (aCtr tcCtr : Nat)
    (used : List String) : SessionState × Nat × Nat × List String :=
  let st1 := preStage1 e now ss0 aCtr used
  let st2 := preStage2 e tcCtr st1.2.1
  (st2.1, st1.2.2.1, st2.2, st1.2.2.2)

def processPre (e : Event) (now : Nat) (s : WorkerState) : WorkerState :=
  let sid := eventSid e
  let s1 := getOrCreateSession s sid e.timestamp (detectSource e)
  match alookup s1.sessions sid with
  | none => s1
  | some ss =>
    let r := preBody e now ss s1.agentIdCounter s1.tcIdCounter s1.usedNames
    { s1 with
      sessions := aset s1.sessions sid r.1,
      agentIdCounter := r.2.1, tcIdCounter := r.2.2.1, usedNames := r.2.2.2 }

/-- Completion of a found pending tool call on a `post` event. -/
def completeCall (e : Event) (tc : ToolCall) : ToolCall :=
  { tc with
    completedAt := e.timestamp,
    outputSummary := summarizeOutput e.tool_name e.tool_response,
    status := if detectError e.tool_response then .error else .completed }

/-- The cross-agent search `for (const a of ss.agents) { a.toolCalls.find(tc => tc.id === pendingId) }`. -/
def callFind (agents : List Agent) (i : Nat) : Option ToolCall :=
  ((agents.map (fun a => a.toolCalls)).flatten).find? (fun tc => decide (tc.id = i))

def updateFirstCall (i : Nat) (f : ToolCall → ToolCall) : List ToolCall → List ToolCall
  | [] => []
  | tc :: rest => if tc.id = i then f tc :: rest else tc :: updateFirstCall i f rest

/-- Mutate (in the first agent that holds it) the tool call with the given id. -/
def updateCallById (i : Nat) (f : ToolCall → ToolCall) : List Agent → List Agent
  | [] => []
  | a :: rest =>
    if a.toolCalls.any (fun tc => decide (tc.id = i)) then
      { a with toolCalls := updateFirstCall i f a.toolCalls } :: rest
    else a :: updateCallById i f rest

def completeLastActiveSubAux (ts : Option Nat) : List Agent → List Agent
  | [] => []
  | a :: rest =>
    if a.type = AgentType.subagent ∧ a.status = AgentStatus.active then
      { a with status := .completed, completedAt := ts } :: rest
    else a :: completeLastActiveSubAux ts rest

/-- `[...ss.agents].reverse().find(a => a.type === 'subagent' && a.status === 'active')`,
then mark it completed. -/
def completeLastActiveSub (ts : Option Nat) (agents : List Agent) : List Agent :=
  (completeLastActiveSubAux ts agents.reverse).reverse

/-- The pending-tool-call matching step of `case 'post'`: if a pending id
exists for this tool name, remove it and complete the found tool call
(counting an error when detected); otherwise leave the session alone. -/
def postPendingStep (e : Event) (ss1 : SessionState) : SessionState :=
  match alookup ss1.pendingToolCalls e.tool_name with
  | some pendingId =>
    let ss2 := { ss1 with pendingToolCalls := aerase ss1.pendingToolCalls e.tool_name }
    match callFind ss1.agents pendingId with
    | some _ =>
      let ss3 := { ss2 with agents := updateCallById pendingId (completeCall e) ss2.agents }
      if detectError e.tool_response then
        { ss3 with stats := { ss3.stats with errors := ss3.stats.errors + 1 } }
      else ss3
    | none => ss2
  | none => ss1

/-- The body of `case 'post'` once the session state has been fetched. -/
def postBody (e : Event) (ss0 : SessionState) : SessionState :=
  let ss1 := reactivateIfEnded ss0 e.timestamp
  match findActiveAgentIdx ss1.agents with
  | none => ss1
  | some idx =>
    let agentId := ((ss1.agents.get? idx).map (fun a => a.id)).getD 0
    let step := postPendingStep e ss1
    let ss4 :=
      { step with stats := { step.stats with
          estimatedTokens := step.stats.estimatedTokens + estimateTokensResp e.tool_response } }
    let ss5 :=
      if e.tool_name = some "Task" then
        { ss4 with agents := completeLastActiveSub e.timestamp ss4.agents }
      else ss4
    addTimelineEvent ss5 e.timestamp "tool_end" agentId

def processPost (e : Event) (s : WorkerState) : WorkerState :=
  let sid := eventSid e
  let s1 := getOrCreateSession s sid e.timestamp (detectSource e)
  match alookup s1.sessions sid with
  | none => s1
  | some ss => { s1 with sessions := aset s1.sessions sid (postBody e ss) }

/-- The body of `case 'notification'`. -/
def notifBody (e : Event) (ss0 : SessionState) : SessionState :=
  let ss1 := reactivateIfEnded ss0 e.timestamp
  let ss2 := { ss1 with stats := { ss1.stats with turns := ss1.stats.turns + 1 } }
  match findActiveAgentIdx ss2.agents with
  | none => ss2
  | some idx =>
    let agentId := ((ss2.agents.get? idx).map (fun a => a.id)).getD 0
    let ss3 :=
      { ss2 with agents := modifyIdx (fun a => { a with lastResponse := truthyStr e.message }) ss2.agents idx }
    addTimelineEvent ss3 e.timestamp "agent_response" agentId

def processNotification (e : Event) (s : WorkerState) : WorkerState :=
  let sid := eventSid e
  let s1 := getOrCreateSession s sid e.timestamp (detectSource e)
  match alookup s1.sessions sid with
  | none => s1
  | some ss => { s1 with sessions := aset s1.sessions sid (notifBody e ss) }

/-- The body of `case 'session_end'` (only applied when the session exists). -/
def endBody (e : Event) (ss : SessionState) : SessionState :=
  { ss with
    session := { ss.session with status := .ended, endedAt := e.timestamp },
    agents := ss.agents.map (fun a =>
      if a.status = AgentStatus.active then
        { a with status := .completed, completedAt := e.timestamp }
      else a) }

def processSessionEnd (e : Event) (s : WorkerState) : WorkerState :=
  let sid := eventSid e
  match alookup s.sessions sid with
  | none => s
  | some ss => { s with sessions := aset s.sessions sid (endBody e ss) }

/-- The reset step of `case 'session_start'`: if the session already
exists, fold its stats into carry-over and delete it. -/
def startReset (e : Event) (s : WorkerState) : WorkerState :=
  match alookup s.sessions (eventSid e) with
  | some old =>
    { s with carryOver := addCarry s.carryOver old.stats,
             sessions := aerase s.sessions (eventSid e) }
  | none => s

/-- `case 'session_start'`: reset an existing session (fold its stats into
carry-over and delete it), then create a fresh one and its main agent. -/
def processSessionStart (e : Event) (now : Nat) (s : WorkerState) : WorkerState :=
  let sid := eventSid e
  let s2 := getOrCreateSession (startReset e s) sid e.timestamp (detectSource e)
  match alookup s2.sessions sid with
  | none => s2
  | some ss =>
    let gm := getOrCreateMainAgent ss s2.agentIdCounter s2.usedNames now
    { s2 with
      sessions := aset s2.sessions sid gm.2.1,
      agentIdCounter := gm.2.2.1, usedNames := gm.2.2.2 }

/-- `processEvent`, dispatching on the phase; an unrecognized phase leaves
the state untouched (the `switch` has no default case). -/
def processEvent (e : Event) (now : Nat) (s : WorkerState) : WorkerState :=
  match e.phase with
  | some .session_start => processSessionStart e now s
  | some .session_end => processSessionEnd e s
  | some .pre => processPre e now s
  | some .post => processPost e s
  | some .notification => processNotification e s
  | none => s

/-! ### Lifecycle pruner -/

def STALE_TIMEOUT : Nat := 5 * 60 * 1000

/-- Ended session past the 2-minute retention window (`endedAt` must be
truthy, and an absent `endedAt` never matches). -/
def endedExpired (now : Nat) (ss : SessionState) : Bool :=
  decide (ss.session.status = SessionStatus.ended) &&
    match ss.session.endedAt with
    | some v => decide (v ≠ 0) && decide (v < now - 2 * 60 * 1000)
    | none => false

/-- Active "ghost" session: zero tool calls and idle for more than 15s
(`now - lastActivity > 15000`; an absent last-activity never matches,
as `NaN` comparisons are false). -/
def ghostSession (now : Nat) (ss : SessionState) : Bool :=
  decide (ss.session.status = SessionStatus.active) &&
    decide (ss.stats.toolCalls = 0) &&
    match ss.lastActivity with
    | some v => decide (v + 15000 < now)
    | none => false

/-- Active session idle past the stale timeout. -/
def staleSession (now : Nat) (ss : SessionState) : Bool :=
  decide (ss.session.status = SessionStatus.active) &&
    match ss.lastActivity with
    | some v => decide (v + STALE_TIMEOUT < now)
    | none => false

/-- Free up the main agents' display names. -/
def releaseMainNames (used : List String) (agents : List Agent) : List String :=
  agents.foldl (fun u a => if a.type = AgentType.main then u.erase a.name else u) used

/-- Mark a stale session ended and complete all its active agents. -/
def endStale (now : Nat) (ss : SessionState) : SessionState :=
  { ss with
    session := { ss.session with status := .ended, endedAt := some now },
    agents := ss.agents.map (fun a =>
      if a.status = AgentStatus.active then
        { a with status := .completed, completedAt := some now }
      else a) }

/-- One pass over the session map: ended sessions past retention are
folded into carry-over and deleted (names freed), ghost sessions are
deleted without folding (names freed), stale active sessions are marked
ended. -/
def pruneList (now : Nat) :
    List (String × SessionState) → CarryStats → List String →
      List (String × SessionState) × CarryStats × List String
  | [], co, used => ([], co, used)
  | (id, ss) :: rest, co, used =>
    if endedExpired now ss then
      pruneList now rest (addCarry co ss.stats) (releaseMainNames used ss.agents)
    else if ghostSession now ss then
      pruneList now rest co (releaseMainNames used ss.agents)
    else if staleSession now ss then
      let r := pruneList now rest co used
      ((id, endStale now ss) :: r.1, r.2.1, r.2.2)
    else
      let r := pruneList now rest co used
      ((id, ss) :: r.1, r.2.1, r.2.2)

def pruneStaleAndEndedSessions (now : Nat) (s : WorkerState) : WorkerState :=
  let r := pruneList now s.sessions s.carryOver s.usedNames
  { s with sessions := r.1, carryOver := r.2.1, usedNames := r.2.2 }

/-! ### Public state totals -/

/-- The statistics-totals portion of `getPublicState`: carry-over plus the
sum of every live session's counters, in iteration order. -/
def getPublicStateTotals (s : WorkerState) : CarryStats :=
  s.sessions.foldl (fun t p => addCarry t p.2.stats) s.carryOver

/-! ### Administrative disconnect -/

/-- Modelled from the spec: the worker script in `src` registers no
`/api/admin/disconnect` route, although the README's API table documents
`POST /api/admin/disconnect?source=X` ("Remove sessions from a source")
and `kmoni-ctl`'s `cmdOff` invokes it; the handler itself is not among
the provided sources.  Per the spec's administrative boundary, the
command removes every session tagged with the given source platform and
leaves all other sessions untouched. -/
def disconnectSource (source : String) (s : WorkerState) : WorkerState :=
  { s with sessions := s.sessions.filter (fun p => decide (¬ p.2.session.source = source)) }

/-! ### Reachable-state invariants used as theorem hypotheses

These are stated as bounded quantifications over the stored lists so that
concrete witnesses can discharge them by `decide`. -/

/-- All tool calls recorded in a session, in agent-scan order. -/
def agentsCalls (agents : List Agent) : List ToolCall :=
  (agents.map (fun a => a.toolCalls)).flatten

/-- Every stored tool-call id is below the id counter (freshness of ids). -/
abbrev TcIdsBelow (s : WorkerState) : Prop :=
  ∀ p ∈ s.sessions, ∀ tc ∈ agentsCalls p.2.agents, tc.id < s.tcIdCounter

/-- Every stored agent id is below the agent id counter (freshness of ids). -/
abbrev AgentIdsBelow (s : WorkerState) : Prop :=
  ∀ p ∈ s.sessions, ∀ a ∈ p.2.agents, a.id < s.agentIdCounter

/-- Each session's pending-tool-call map has no duplicate tool-name keys. -/
abbrev PendingKeysNodup (s : WorkerState) : Prop :=
  ∀ p ∈ s.sessions, (p.2.pendingToolCalls.map Prod.fst).Nodup

/-- The session map has no duplicate session-id keys. -/
abbrev SessionKeysNodup (s : WorkerState) : Prop :=
  (s.sessions.map Prod.fst).Nodup

/-! ### Association-list lemmas -/

theorem alookup_mem {α β : Type} [DecidableEq α] {l : List (α × β)} {k : α} {v : β}
    (h : alookup l k = some v) : (k, v) ∈ l := by
  induction l with
  | nil => simp [alookup] at h
  | cons p rest ih =>
    obtain ⟨k', v'⟩ := p
    simp only [alookup] at h
    split at h
    · next heq => injection h with h; subst heq; subst h; exact List.mem_cons_self _ _
    · exact List.mem_cons_of_mem _ (ih h)

theorem alookup_aset_self {α β : Type} [DecidableEq α] (l : List (α × β)) (k : α) (v : β) :
    alookup (aset l k v) k = some v := by
  induction l with
  | nil => simp [aset, alookup]
  | cons p rest ih =>
    obtain ⟨k', v'⟩ := p
    simp only [aset]
    split
    · simp [alookup]
    · next hne => simp only [alookup]; rw [if_neg hne]; exact ih

theorem alookup_aset_ne {α β : Type} [DecidableEq α] (l : List (α × β)) {k k' : α} (v : β)
    (h : k' ≠ k) : alookup (aset l k v) k' = alookup l k' := by
  induction l with
  | nil => simp only [aset, alookup]; rw [if_neg (Ne.symm h)]
  | cons p rest ih =>
    obtain ⟨k₁, v₁⟩ := p
    simp only [aset]
    split
    · next heq =>
      subst heq
      simp only [alookup]
      rw [if_neg (Ne.symm h), if_neg (Ne.symm h)]
    · simp only [alookup]; split
      · rfl
      · exact ih

theorem alookup_aerase_ne {α β : Type} [DecidableEq α] (l : List (α × β)) {k k' : α}
    (h : k' ≠ k) : alookup (aerase l k) k' = alookup l k' := by
  induction l with
  | nil => simp [aerase]
  | cons p rest ih =>
    obtain ⟨k₁, v₁⟩ := p
    simp only [aerase]
    split
    · next heq =>
      subst heq
      simp only [alookup]
      rw [if_neg (Ne.symm h)]
    · simp only [alookup]; split
      · rfl
      · exact ih

theorem alookup_eq_none_of_not_mem {α β : Type} [DecidableEq α] {l : List (α × β)} {k : α}
    (h : k ∉ l.map Prod.fst) : alookup l k = none := by
  induction l with
  | nil => simp [alookup]
  | cons p rest ih =>
    obtain ⟨k₁, v₁⟩ := p
    simp only [List.map_cons, List.mem_cons] at h
    push_neg at h
    simp only [alookup]
    rw [if_neg (Ne.symm h.1)]
    exact ih h.2

theorem alookup_aerase_self {α β : Type} [DecidableEq α] {l : List (α × β)} {k : α}
    (hnd : (l.map Prod.fst).Nodup) : alookup (aerase l k) k = none := by
  induction l with
  | nil => simp [aerase, alookup]
  | cons p rest ih =>
    obtain ⟨k₁, v₁⟩ := p
    simp only [List.map_cons, List.nodup_cons] at hnd
    simp only [aerase]
    split
    · next heq =>
      subst heq
      exact alookup_eq_none_of_not_mem hnd.1
    · next hne =>
      simp only [alookup]
      rw [if_neg hne]
      exact ih hnd.2

theorem alookup_amodify_self {α β : Type} [DecidableEq α] (f : β → β) (l : List (α × β)) (k : α) :
    alookup (amodify f l k) k = (alookup l k).map f := by
  induction l with
  | nil => simp [amodify, alookup]
  | cons p rest ih =>
    obtain ⟨k₁, v₁⟩ := p
    simp only [amodify]
    split
    · next heq => subst heq; simp [alookup]
    · next hne => simp only [alookup]; rw [if_neg hne, if_neg hne]; exact ih

theorem alookup_amodify_ne {α β : Type} [DecidableEq α] (f : β → β) (l : List (α × β))
    {k k' : α} (h : k' ≠ k) : alookup (amodify f l k) k' = alookup l k' := by
  induction l with
  | nil => simp [amodify]
  | cons p rest ih =>
    obtain ⟨k₁, v₁⟩ := p
    simp only [amodify]
    split
    · next heq =>
      subst heq
      simp only [alookup]
      rw [if_neg (Ne.symm h), if_neg (Ne.symm h)]
    · simp only [alookup]; split
      · rfl
      · exact ih

theorem mem_aset {α β : Type} [DecidableEq α] {l : List (α × β)} {k : α} {v : β} {p : α × β}
    (h : p ∈ aset l k v) : p = (k, v) ∨ p ∈ l := by
  induction l with
  | nil => simp [aset] at h; simp [h]
  | cons q rest ih =>
    obtain ⟨k₁, v₁⟩ := q
    simp only [aset] at h
    split at h
    · rcases List.mem_cons.mp h with h | h
      · exact Or.inl h
      · exact Or.inr (List.mem_cons_of_mem _ h)
    · rcases List.mem_cons.mp h with h | h
      · exact Or.inr (by simp [h])
      · rcases ih h with h | h
        · exact Or.inl h
        · exact Or.inr (List.mem_cons_of_mem _ h)

theorem mem_aerase {α β : Type} [DecidableEq α] {l : List (α × β)} {k : α} {p : α × β}
    (h : p ∈ aerase l k) : p ∈ l := by
  induction l with
  | nil => simp [aerase] at h
  | cons q rest ih =>
    obtain ⟨k₁, v₁⟩ := q
    simp only [aerase] at h
    split at h
    · exact List.mem_cons_of_mem _ h
    · rcases List.mem_cons.mp h with h | h
      · simp [h]
      · exact List.mem_cons_of_mem _ (ih h)

theorem mem_amodify {α β : Type} [DecidableEq α] {f : β → β} {l : List (α × β)} {k : α}
    {p : α × β} (h : p ∈ amodify f l k) : p ∈ l ∨ ∃ q ∈ l, p = (q.1, f q.2) := by
  induction l with
  | nil => simp [amodify] at h
  | cons q rest ih =>
    obtain ⟨k₁, v₁⟩ := q
    simp only [amodify] at h
    split at h
    · rcases List.mem_cons.mp h with h | h
      · exact Or.inr ⟨(k₁, v₁), List.mem_cons_self _ _, h⟩
      · exact Or.inl (List.mem_cons_of_mem _ h)
    · rcases List.mem_cons.mp h with h | h
      · exact Or.inl (by simp [h])
      · rcases ih h with h | ⟨q, hq, hpq⟩
        · exact Or.inl (List.mem_cons_of_mem _ h)
        · exact Or.inr ⟨q, List.mem_cons_of_mem _ hq, hpq⟩

theorem mem_keys_aset {α β : Type} [DecidableEq α] {l : List (α × β)} {k k' : α} {v : β}
    (h : k' ∈ (aset l k v).map Prod.fst) : k' ∈ l.map Prod.fst ∨ k' = k := by
  induction l with
  | nil => simp [aset] at h; simp [h]
  | cons q rest ih =>
    obtain ⟨k₁, v₁⟩ := q
    simp only [aset] at h
    split at h
    · next heq =>
      subst heq
      simp only [List.map_cons, List.mem_cons] at h ⊢
      rcases h with h | h
      · exact Or.inr h
      · exact Or.inl (Or.inr h)
    · simp only [List.map_cons, List.mem_cons] at h ⊢
      rcases h with h | h
      · exact Or.inl (Or.inl h)
      · rcases ih h with h | h
        · exact Or.inl (Or.inr h)
        · exact Or.inr h

theorem nodup_keys_aset {α β : Type} [DecidableEq α] {l : List (α × β)} (k : α) (v : β)
    (hnd : (l.map Prod.fst).Nodup) : ((aset l k v).map Prod.fst).Nodup := by
  induction l with
  | nil => simp [aset]
  | cons q rest ih =>
    obtain ⟨k₁, v₁⟩ := q
    simp only [List.map_cons, List.nodup_cons] at hnd
    simp only [aset]
    split
    · next heq =>
      subst heq
      simp only [List.map_cons, List.nodup_cons]
      exact hnd
    · next hne =>
      simp only [List.map_cons, List.nodup_cons]
      refine ⟨fun hmem => ?_, ih hnd.2⟩
      rcases mem_keys_aset hmem with h | h
      · exact hnd.1 h
      · exact hne h

theorem sublist_aerase {α β : Type} [DecidableEq α] (l : List (α × β)) (k : α) :
    (aerase l k).Sublist l := by
  induction l with
  | nil => simp [aerase]
  | cons q rest ih =>
    obtain ⟨k₁, v₁⟩ := q
    simp only [aerase]
    split
    · exact List.sublist_cons_self _ _
    · exact List.Sublist.cons₂ _ ih

theorem nodup_keys_aerase {α β : Type} [DecidableEq α] {l : List (α × β)} (k : α)
    (hnd : (l.map Prod.fst).Nodup) : ((aerase l k).map Prod.fst).Nodup :=
  List.Nodup.sublist (List.Sublist.map Prod.fst (sublist_aerase l k)) hnd

/-! ### Session-store characterization lemmas -/

/-- The session value present after `getOrCreateSession`. -/
def gocsVal (s : WorkerState) (sid : String) (t : Option Nat) (src : String) : SessionState :=
  backfillSource src ((alookup s.sessions sid).getD (createSessionState sid t src))

@[simp] theorem gocs_agentIdCounter (s : WorkerState) (sid : String) (t : Option Nat) (src : String) :
    (getOrCreateSession s sid t src).agentIdCounter = s.agentIdCounter := rfl

@[simp] theorem gocs_tcIdCounter (s : WorkerState) (sid : String) (t : Option Nat) (src : String) :
    (getOrCreateSession s sid t src).tcIdCounter = s.tcIdCounter := rfl

@[simp] theorem gocs_usedNames (s : WorkerState) (sid : String) (t : Option Nat) (src : String) :
    (getOrCreateSession s sid t src).usedNames = s.usedNames := rfl

@[simp] theorem gocs_carryOver (s : WorkerState) (sid : String) (t : Option Nat) (src : String) :
    (getOrCreateSession s sid t src).carryOver = s.carryOver := rfl

theorem lookup_gocs_self (s : WorkerState) (sid : String) (t : Option Nat) (src : String) :
    alookup (getOrCreateSession s sid t src).sessions sid = some (gocsVal s sid t src) := by
  unfold getOrCreateSession gocsVal
  cases h : alookup s.sessions sid with
  | some ss => simp [h, alookup_amodify_self]
  | none => simp [h, alookup_amodify_self, alookup_aset_self]

theorem lookup_gocs_ne (s : WorkerState) {sid sid' : String} (t : Option Nat) (src : String)
    (h : sid' ≠ sid) :
    alookup (getOrCreateSession s sid t src).sessions sid' = alookup s.sessions sid' := by
  unfold getOrCreateSession
  cases hl : alookup s.sessions sid with
  | some ss => simp [hl, alookup_amodify_ne _ _ h]
  | none => simp [hl, alookup_amodify_ne _ _ h, alookup_aset_ne _ _ h]

theorem lookup_processPre_self (e : Event) (now : Nat) (s : WorkerState) :
    alookup (processPre e now s).sessions (eventSid e) =
      some (preBody e now (gocsVal s (eventSid e) e.timestamp (detectSource e))
        s.agentIdCounter s.tcIdCounter s.usedNames).1 := by
  simp only [processPre]
  rw [lookup_gocs_self]
  simp only [gocs_agentIdCounter, gocs_tcIdCounter, gocs_usedNames]
  exact alookup_aset_self _ _ _

theorem lookup_processPre_ne (e : Event) (now : Nat) (s : WorkerState) {sid : String}
    (h : sid ≠ eventSid e) :
    alookup (processPre e now s).sessions sid = alookup s.sessions sid := by
  simp only [processPre]
  rw [lookup_gocs_self]
  rw [alookup_aset_ne _ _ h]
  exact lookup_gocs_ne s _ _ h

theorem lookup_processPost_self (e : Event) (s : WorkerState) :
    alookup (processPost e s).sessions (eventSid e) =
      some (postBody e (gocsVal s (eventSid e) e.timestamp (detectSource e))) := by
  simp only [processPost]
  rw [lookup_gocs_self]
  exact alookup_aset_self _ _ _

theorem lookup_processPost_ne (e : Event) (s : WorkerState) {sid : String}
    (h : sid ≠ eventSid e) :
    alookup (processPost e s).sessions sid = alookup s.sessions sid := by
  simp only [processPost]
  rw [lookup_gocs_self]
  rw [alookup_aset_ne _ _ h]
  exact lookup_gocs_ne s _ _ h

theorem lookup_processNotification_self (e : Event) (s : WorkerState) :
    alookup (processNotification e s).sessions (eventSid e) =
      some (notifBody e (gocsVal s (eventSid e) e.timestamp (detectSource e))) := by
  simp only [processNotification]
  rw [lookup_gocs_self]
  exact alookup_aset_self _ _ _

theorem lookup_processNotification_ne (e : Event) (s : WorkerState) {sid : String}
    (h : sid ≠ eventSid e) :
    alookup (processNotification e s).sessions sid = alookup s.sessions sid := by
  simp only [processNotification]
  rw [lookup_gocs_self]
  rw [alookup_aset_ne _ _ h]
  exact lookup_gocs_ne s _ _ h

theorem lookup_processSessionEnd_self (e : Event) (s : WorkerState) :
    alookup (processSessionEnd e s).sessions (eventSid e) =
      (alookup s.sessions (eventSid e)).map (endBody e) := by
  simp only [processSessionEnd]
  cases h : alookup s.sessions (eventSid e) with
  | none => simp [h]
  | some ss => simp [h, alookup_aset_self]

theorem lookup_processSessionEnd_ne (e : Event) (s : WorkerState) {sid : String}
    (h : sid ≠ eventSid e) :
    alookup (processSessionEnd e s).sessions sid = alookup s.sessions sid := by
  simp only [processSessionEnd]
  cases hl : alookup s.sessions (eventSid e) with
  | none => rfl
  | some ss => simp [hl, alookup_aset_ne _ _ h]

theorem lookup_processSessionStart_self (e : Event) (now : Nat) (s : WorkerState)
    (hnd : SessionKeysNodup s) :
    alookup (processSessionStart e now s).sessions (eventSid e) =
      some (getOrCreateMainAgent
        (backfillSource (detectSource e)
          (createSessionState (eventSid e) e.timestamp (detectSource e)))
        s.agentIdCounter s.usedNames now).2.1 := by
  simp only [processSessionStart, startReset]
  cases h : alookup s.sessions (eventSid e) with
  | none =>
    have hg := lookup_gocs_self s (eventSid e) e.timestamp (detectSource e)
    rw [hg]
    simp only [gocs_agentIdCounter, gocs_usedNames]
    rw [alookup_aset_self]
    simp [gocsVal, h]
  | some old =>
    have hnone : alookup (aerase s.sessions (eventSid e)) (eventSid e) = none :=
      alookup_aerase_self hnd
    have hg := lookup_gocs_self
      { s with carryOver := addCarry s.carryOver old.stats,
               sessions := aerase s.sessions (eventSid e) }
      (eventSid e) e.timestamp (detectSource e)
    rw [hg]
    simp only [gocs_agentIdCounter, gocs_usedNames]
    rw [alookup_aset_self]
    simp [gocsVal, hnone]

theorem lookup_processSessionStart_ne (e : Event) (now : Nat) (s : WorkerState) {sid : String}
    (h : sid ≠ eventSid e) :
    alookup (processSessionStart e now s).sessions sid = alookup s.sessions sid := by
  simp only [processSessionStart, startReset]
  cases hl : alookup s.sessions (eventSid e) with
  | none =>
    rw [lookup_gocs_self]
    rw [alookup_aset_ne _ _ h]
    exact lookup_gocs_ne s _ _ h
  | some old =>
    rw [lookup_gocs_self]
    rw [alookup_aset_ne _ _ h]
    have := lookup_gocs_ne
      { s with carryOver := addCarry s.carryOver old.stats,
               sessions := aerase s.sessions (eventSid e) }
      e.timestamp (detectSource e) h
    rw [this]
    exact alookup_aerase_ne _ h

/-! ### Field-preservation facts for the session-level operations -/

@[simp] theorem reactivate_stats (ss : SessionState) (t : Option Nat) :
    (reactivateIfEnded ss t).stats = ss.stats := by
  unfold reactivateIfEnded; split <;> rfl

@[simp] theorem reactivate_pending (ss : SessionState) (t : Option Nat) :
    (reactivateIfEnded ss t).pendingToolCalls = ss.pendingToolCalls := by
  unfold reactivateIfEnded; split <;> rfl

theorem reviveMain_map_toolCalls (l : List Agent) :
    (reviveMain l).map (fun a => a.toolCalls) = l.map (fun a => a.toolCalls) := by
  induction l with
  | nil => rfl
  | cons a rest ih =>
    by_cases h1 : a.type = AgentType.main
    · by_cases h2 : a.status = AgentStatus.completed <;> simp [reviveMain, h1, h2]
    · simp [reviveMain, h1, ih]

@[simp] theorem reactivate_agentsCalls (ss : SessionState) (t : Option Nat) :
    agentsCalls (reactivateIfEnded ss t).agents = agentsCalls ss.agents := by
  unfold reactivateIfEnded
  split
  · simp [agentsCalls, reviveMain_map_toolCalls]
  · rfl

theorem agentsCalls_append (l : List Agent) (a : Agent) :
    agentsCalls (l ++ [a]) = agentsCalls l ++ a.toolCalls := by
  simp [agentsCalls]

@[simp] theorem gocma_stats (ss : SessionState) (ctr : Nat) (used : List String) (now : Nat) :
    (getOrCreateMainAgent ss ctr used now).2.1.stats = ss.stats := by
  unfold getOrCreateMainAgent
  cases h : ss.agents.find? (fun a => decide (a.type = AgentType.main)) <;> rfl

@[simp] theorem gocma_pending (ss : SessionState) (ctr : Nat) (used : List String) (now : Nat) :
    (getOrCreateMainAgent ss ctr used now).2.1.pendingToolCalls = ss.pendingToolCalls := by
  unfold getOrCreateMainAgent
  cases h : ss.agents.find? (fun a => decide (a.type = AgentType.main)) <;> rfl

@[simp] theorem gocma_lastActivity (ss : SessionState) (ctr : Nat) (used : List String) (now : Nat) :
    (getOrCreateMainAgent ss ctr used now).2.1.lastActivity = ss.lastActivity := by
  unfold getOrCreateMainAgent
  cases h : ss.agents.find? (fun a => decide (a.type = AgentType.main)) <;> rfl

@[simp] theorem gocma_session (ss : SessionState) (ctr : Nat) (used : List String) (now : Nat) :
    (getOrCreateMainAgent ss ctr used now).2.1.session = ss.session := by
  unfold getOrCreateMainAgent
  cases h : ss.agents.find? (fun a => decide (a.type = AgentType.main)) <;> rfl

@[simp] theorem gocma_agentsCalls (ss : SessionState) (ctr : Nat) (used : List String) (now : Nat) :
    agentsCalls (getOrCreateMainAgent ss ctr used now).2.1.agents = agentsCalls ss.agents := by
  unfold getOrCreateMainAgent
  cases h : ss.agents.find? (fun a => decide (a.type = AgentType.main))
  · simp only []
    rw [agentsCalls_append]
    simp
  · rfl

theorem gocma_agents_ne_nil (ss : SessionState) (ctr : Nat) (used : List String) (now : Nat) :
    (getOrCreateMainAgent ss ctr used now).2.1.agents ≠ [] := by
  unfold getOrCreateMainAgent
  cases h : ss.agents.find? (fun a => decide (a.type = AgentType.main)) with
  | none => simp
  | some m =>
    have := List.mem_of_find?_eq_some h
    simp only []
    exact List.ne_nil_of_mem this

theorem setMainModel_map_toolCalls (m : Option String) (l : List Agent) :
    (setMainModel m l).map (fun a => a.toolCalls) = l.map (fun a => a.toolCalls) := by
  induction l with
  | nil => rfl
  | cons a rest ih =>
    by_cases h : a.type = AgentType.main <;> simp [setMainModel, h, ih]

theorem setMainModel_length (m : Option String) (l : List Agent) :
    (setMainModel m l).length = l.length := by
  induction l with
  | nil => rfl
  | cons a rest ih =>
    by_cases h : a.type = AgentType.main <;> simp [setMainModel, h, ih]

@[simp] theorem spawn_stats (ss : SessionState) (pid : Nat) (ti : Option ToolInput)
    (ctr now : Nat) : (spawnSubagent ss pid ti ctr now).2.1.stats = ss.stats := rfl

@[simp] theorem spawn_pending (ss : SessionState) (pid : Nat) (ti : Option ToolInput)
    (ctr now : Nat) : (spawnSubagent ss pid ti ctr now).2.1.pendingToolCalls = ss.pendingToolCalls := rfl

@[simp] theorem spawn_agentsCalls (ss : SessionState) (pid : Nat) (ti : Option ToolInput)
    (ctr now : Nat) : agentsCalls (spawnSubagent ss pid ti ctr now).2.1.agents = agentsCalls ss.agents := by
  unfold spawnSubagent
  rw [agentsCalls_append]
  simp

@[simp] theorem addTimeline_stats (ss : SessionState) (t : Option Nat) (ty : String) (aid : Nat) :
    (addTimelineEvent ss t ty aid).stats = ss.stats := rfl

@[simp] theorem addTimeline_pending (ss : SessionState) (t : Option Nat) (ty : String) (aid : Nat) :
    (addTimelineEvent ss t ty aid).pendingToolCalls = ss.pendingToolCalls := rfl

@[simp] theorem addTimeline_agents (ss : SessionState) (t : Option Nat) (ty : String) (aid : Nat) :
    (addTimelineEvent ss t ty aid).agents = ss.agents := rfl

@[simp] theorem addTimeline_session (ss : SessionState) (t : Option Nat) (ty : String) (aid : Nat) :
    (addTimelineEvent ss t ty aid).session = ss.session := rfl

@[simp] theorem addTimeline_lastActivity (ss : SessionState) (t : Option Nat) (ty : String) (aid : Nat) :
    (addTimelineEvent ss t ty aid).lastActivity = ss.lastActivity := rfl

@[simp] theorem addTimeline_files (ss : SessionState) (t : Option Nat) (ty : String) (aid : Nat) :
    (addTimelineEvent ss t ty aid).files = ss.files := rfl

@[simp] theorem trackLines_agents (ss : SessionState) (tn : Option String) (ti : Option ToolInput) :
    (trackLines ss tn ti).agents = ss.agents := by
  simp only [trackLines]; split_ifs <;> rfl

@[simp] theorem trackLines_pending (ss : SessionState) (tn : Option String) (ti : Option ToolInput) :
    (trackLines ss tn ti).pendingToolCalls = ss.pendingToolCalls := by
  simp only [trackLines]; split_ifs <;> rfl

@[simp] theorem trackLines_session (ss : SessionState) (tn : Option String) (ti : Option ToolInput) :
    (trackLines ss tn ti).session = ss.session := by
  simp only [trackLines]; split_ifs <;> rfl

@[simp] theorem trackPath_agents (ss : SessionState) (tn : Option String) (fp : Option String)
    (t : Option Nat) : (trackPath ss tn fp t).agents = ss.agents := by
  unfold trackPath
  split
  · rfl
  · split <;> rfl

@[simp] theorem trackPath_pending (ss : SessionState) (tn : Option String) (fp : Option String)
    (t : Option Nat) : (trackPath ss tn fp t).pendingToolCalls = ss.pendingToolCalls := by
  unfold trackPath
  split
  · rfl
  · split <;> rfl

@[simp] theorem trackPath_session (ss : SessionState) (tn : Option String) (fp : Option String)
    (t : Option Nat) : (trackPath ss tn fp t).session = ss.session := by
  unfold trackPath
  split
  · rfl
  · split <;> rfl

@[simp] theorem trackFile_agents (ss : SessionState) (tn : Option String) (ti : Option ToolInput)
    (t : Option Nat) : (trackFileAccess ss tn ti t).agents = ss.agents := by
  unfold trackFileAccess; simp

@[simp] theorem trackFile_pending (ss : SessionState) (tn : Option String) (ti : Option ToolInput)
    (t : Option Nat) : (trackFileAccess ss tn ti t).pendingToolCalls = ss.pendingToolCalls := by
  unfold trackFileAccess; simp

/-! ### Statistics order -/

/-- Pointwise order on the seven statistics counters. -/
def statsLe (a b : Stats) : Prop :=
  a.toolCalls ≤ b.toolCalls ∧ a.filesAccessed ≤ b.filesAccessed ∧
  a.estimatedTokens ≤ b.estimatedTokens ∧ a.linesAdded ≤ b.linesAdded ∧
  a.linesRemoved ≤ b.linesRemoved ∧ a.turns ≤ b.turns ∧ a.errors ≤ b.errors

theorem statsLe_refl (a : Stats) : statsLe a a := by
  unfold statsLe; omega

theorem statsLe_of_eq {a b : Stats} (h : a = b) : statsLe a b := h ▸ statsLe_refl a

theorem statsLe_trans {a b c : Stats} (h1 : statsLe a b) (h2 : statsLe b c) : statsLe a c := by
  unfold statsLe at *; omega

theorem trackLines_stats_le (ss : SessionState) (tn : Option String) (ti : Option ToolInput) :
    statsLe ss.stats (trackLines ss tn ti).stats := by
  simp only [trackLines]
  split_ifs <;> simp [statsLe]

theorem trackPath_stats_le (ss : SessionState) (tn : Option String) (fp : Option String)
    (t : Option Nat) : statsLe ss.stats (trackPath ss tn fp t).stats := by
  unfold trackPath
  split
  · exact statsLe_refl _
  · split
    · exact statsLe_refl _
    · simp [statsLe]

theorem trackFile_stats_le (ss : SessionState) (tn : Option String) (ti : Option ToolInput)
    (t : Option Nat) : statsLe ss.stats (trackFileAccess ss tn ti t).stats := by
  unfold trackFileAccess
  exact statsLe_trans (trackLines_stats_le ss tn ti) (trackPath_stats_le _ tn _ t)

/-! ### `findActiveAgent` facts -/

theorem lastActiveIdx_lt {l : List Agent} {i : Nat} (h : lastActiveIdx l = some i) :
    i < l.length := by
  induction l generalizing i with
  | nil => simp [lastActiveIdx] at h
  | cons a rest ih =>
    simp only [lastActiveIdx] at h
    cases hr : lastActiveIdx rest with
    | some j =>
      rw [hr] at h
      simp at h
      have := ih hr
      simp only [List.length_cons]
      omega
    | none =>
      rw [hr] at h
      simp at h
      obtain ⟨h1, h2⟩ := h
      subst h2
      simp

theorem findActiveAgentIdx_lt {l : List Agent} {i : Nat} (h : findActiveAgentIdx l = some i) :
    i < l.length := by
  unfold findActiveAgentIdx at h
  cases hr : lastActiveIdx l with
  | some j =>
    rw [hr] at h
    simp only [Option.or_some] at h
    injection h with h
    subst h
    exact lastActiveIdx_lt hr
  | none =>
    rw [hr] at h
    simp only [Option.none_or] at h
    split_ifs at h with hemp
    injection h with h
    subst h
    cases l with
    | nil => simp at hemp
    | cons a rest => simp

theorem findActiveAgentIdx_isSome_of_ne_nil {l : List Agent} (h : l ≠ []) :
    ∃ i, findActiveAgentIdx l = some i := by
  unfold findActiveAgentIdx
  cases hr : lastActiveIdx l with
  | some j => exact ⟨j, by simp⟩
  | none =>
    refine ⟨0, ?_⟩
    rw [Option.none_or, if_neg (by simpa using h)]

/-! ### Tool-call search and update machinery -/

theorem callFind_eq (l : List Agent) (i : Nat) :
    callFind l i = (agentsCalls l).find? (fun tc => decide (tc.id = i)) := rfl

theorem callFind_congr {l l' : List Agent} (h : agentsCalls l = agentsCalls l') (i : Nat) :
    callFind l i = callFind l' i := by
  rw [callFind_eq, callFind_eq, h]

@[simp] theorem agentsCalls_cons (a : Agent) (l : List Agent) :
    agentsCalls (a :: l) = a.toolCalls ++ agentsCalls l := by
  simp [agentsCalls]

theorem callFind_cons (a : Agent) (l : List Agent) (i : Nat) :
    callFind (a :: l) i =
      (a.toolCalls.find? (fun tc => decide (tc.id = i))).or (callFind l i) := by
  rw [callFind_eq, agentsCalls_cons, List.find?_append, callFind_eq]

theorem find?_updateFirstCall_ne {l : List ToolCall} {i j : Nat} (hne : j ≠ i)
    {f : ToolCall → ToolCall} (hf : ∀ tc, (f tc).id = tc.id) :
    (updateFirstCall i f l).find? (fun tc => decide (tc.id = j)) =
      l.find? (fun tc => decide (tc.id = j)) := by
  induction l with
  | nil => rfl
  | cons tc rest ih =>
    by_cases hid : tc.id = i
    · rw [updateFirstCall, if_pos hid]
      rw [List.find?_cons_of_neg _ (by simp [hf, hid, Ne.symm hne]),
        List.find?_cons_of_neg _ (by simp [hid, Ne.symm hne])]
    · rw [updateFirstCall, if_neg hid]
      by_cases hj : tc.id = j
      · rw [List.find?_cons_of_pos _ (by simp [hj]), List.find?_cons_of_pos _ (by simp [hj])]
      · rw [List.find?_cons_of_neg _ (by simp [hj]), List.find?_cons_of_neg _ (by simp [hj])]
        exact ih

theorem find?_updateFirstCall_self {l : List ToolCall} {i : Nat} {tc0 : ToolCall}
    {f : ToolCall → ToolCall} (hf : ∀ tc, (f tc).id = tc.id)
    (h : l.find? (fun tc => decide (tc.id = i)) = some tc0) :
    (updateFirstCall i f l).find? (fun tc => decide (tc.id = i)) = some (f tc0) := by
  induction l with
  | nil => simp at h
  | cons tc rest ih =>
    by_cases hid : tc.id = i
    · rw [List.find?_cons_of_pos _ (by simp [hid])] at h
      injection h with h
      subst h
      rw [updateFirstCall, if_pos hid]
      rw [List.find?_cons_of_pos _ (by simp [hf, hid])]
    · rw [List.find?_cons_of_neg _ (by simp [hid])] at h
      rw [updateFirstCall, if_neg hid]
      rw [List.find?_cons_of_neg _ (by simp [hid])]
      exact ih h

theorem callFind_updateCallById_ne {l : List Agent} {i j : Nat} (hne : j ≠ i)
    {f : ToolCall → ToolCall} (hf : ∀ tc, (f tc).id = tc.id) :
    callFind (updateCallById i f l) j = callFind l j := by
  induction l with
  | nil => rfl
  | cons a rest ih =>
    by_cases ha : a.toolCalls.any (fun tc => decide (tc.id = i))
    · rw [updateCallById, if_pos ha, callFind_cons, callFind_cons]
      simp only []
      rw [find?_updateFirstCall_ne hne hf]
    · rw [updateCallById, if_neg ha, callFind_cons, callFind_cons, ih]

theorem callFind_updateCallById_self {l : List Agent} {i : Nat} {tc0 : ToolCall}
    {f : ToolCall → ToolCall} (hf : ∀ tc, (f tc).id = tc.id)
    (h : callFind l i = some tc0) :
    callFind (updateCallById i f l) i = some (f tc0) := by
  induction l with
  | nil => simp [callFind] at h
  | cons a rest ih =>
    by_cases ha : a.toolCalls.any (fun tc => decide (tc.id = i))
    · rw [callFind_cons] at h
      obtain ⟨t, ht, hp⟩ := List.any_eq_true.mp ha
      cases hfind : a.toolCalls.find? (fun tc => decide (tc.id = i)) with
      | none =>
        rw [List.find?_eq_none] at hfind
        exact absurd hp (hfind t ht)
      | some t0 =>
        rw [hfind, Option.or_some] at h
        injection h with h
        subst h
        rw [updateCallById, if_pos ha, callFind_cons]
        simp only []
        rw [find?_updateFirstCall_self hf hfind, Option.or_some]
    · rw [callFind_cons] at h
      have hnone : a.toolCalls.find? (fun tc => decide (tc.id = i)) = none := by
        rw [List.find?_eq_none]
        intro x hx
        simp only [Bool.not_eq_true]
        by_contra hc
        exact ha (List.any_eq_true.mpr ⟨x, hx, by simpa using hc⟩)
      rw [hnone, Option.none_or] at h
      rw [updateCallById, if_neg ha, callFind_cons, hnone, Option.none_or]
      exact ih h

@[simp] theorem completeCall_id (e : Event) (tc : ToolCall) : (completeCall e tc).id = tc.id := rfl

theorem callFind_modifyIdx_push_ne {l : List Agent} {idx : Nat} {tc : ToolCall}
    {g : Agent → Agent} (hg : ∀ a, (g a).toolCalls = a.toolCalls ++ [tc])
    {j : Nat} (hne : j ≠ tc.id) :
    callFind (modifyIdx g l idx) j = callFind l j := by
  induction l generalizing idx with
  | nil => rfl
  | cons a rest ih =>
    cases idx with
    | zero =>
      rw [modifyIdx, callFind_cons, callFind_cons, hg, List.find?_append]
      have : ([tc].find? (fun t => decide (t.id = j))) = none := by
        simp [Ne.symm hne]
      rw [this, Option.or_none]
    | succ n =>
      rw [modifyIdx, callFind_cons, callFind_cons, ih]

theorem callFind_modifyIdx_push_self {l : List Agent} {idx : Nat} {tc : ToolCall}
    {g : Agent → Agent} (hg : ∀ a, (g a).toolCalls = a.toolCalls ++ [tc])
    (hidx : idx < l.length) (hfresh : ∀ tc' ∈ agentsCalls l, tc'.id ≠ tc.id) :
    callFind (modifyIdx g l idx) tc.id = some tc := by
  induction l generalizing idx with
  | nil => simp at hidx
  | cons a rest ih =>
    have hhead : a.toolCalls.find? (fun t => decide (t.id = tc.id)) = none := by
      rw [List.find?_eq_none]
      intro x hx
      simp only [decide_eq_true_eq]
      exact hfresh x (by simp [hx])
    cases idx with
    | zero =>
      rw [modifyIdx, callFind_cons, hg, List.find?_append, hhead, Option.none_or]
      have : ([tc].find? (fun t => decide (t.id = tc.id))) = some tc := by simp
      rw [this, Option.or_some]
    | succ n =>
      rw [modifyIdx, callFind_cons, hhead, Option.none_or]
      refine ih ?_ ?_
      · simpa using hidx
      · intro x hx
        exact hfresh x (by simp [hx])

theorem aux_map_toolCalls (ts : Option Nat) (l : List Agent) :
    (completeLastActiveSubAux ts l).map (fun a => a.toolCalls) = l.map (fun a => a.toolCalls) := by
  induction l with
  | nil => rfl
  | cons a rest ih =>
    by_cases h : a.type = AgentType.subagent ∧ a.status = AgentStatus.active <;>
      simp [completeLastActiveSubAux, h, ih]

theorem agentsCalls_completeLastActiveSub (ts : Option Nat) (l : List Agent) :
    agentsCalls (completeLastActiveSub ts l) = agentsCalls l := by
  unfold completeLastActiveSub agentsCalls
  rw [List.map_reverse, aux_map_toolCalls, List.map_reverse, List.reverse_reverse]

theorem reviveMain_length (l : List Agent) : (reviveMain l).length = l.length := by
  induction l with
  | nil => rfl
  | cons a rest ih =>
    by_cases h1 : a.type = AgentType.main
    · by_cases h2 : a.status = AgentStatus.completed <;> simp [reviveMain, h1, h2]
    · simp [reviveMain, h1, ih]

theorem reactivate_agents_ne_nil {ss : SessionState} (t : Option Nat) (h : ss.agents ≠ []) :
    (reactivateIfEnded ss t).agents ≠ [] := by
  unfold reactivateIfEnded
  split
  · intro hc
    have := congrArg List.length hc
    rw [reviveMain_length] at this
    exact h (List.length_eq_zero.mp this)
  · exact h

/-! ### Stage lemmas for the `pre` handler -/

@[simp] theorem agentsCalls_setMainModel (m : Option String) (l : List Agent) :
    agentsCalls (setMainModel m l) = agentsCalls l := by
  simp [agentsCalls, setMainModel_map_toolCalls]

theorem preStage1_stats (e : Event) (now : Nat) (ss : SessionState) (aCtr : Nat)
    (used : List String) : (preStage1 e now ss aCtr used).2.1.stats = ss.stats := by
  simp only [preStage1]
  split_ifs <;> simp

theorem preStage1_pending (e : Event) (now : Nat) (ss : SessionState) (aCtr : Nat)
    (used : List String) :
    (preStage1 e now ss aCtr used).2.1.pendingToolCalls = ss.pendingToolCalls := by
  simp only [preStage1]
  split_ifs <;> simp

theorem preStage1_agentsCalls (e : Event) (now : Nat) (ss : SessionState) (aCtr : Nat)
    (used : List String) :
    agentsCalls (preStage1 e now ss aCtr used).2.1.agents = agentsCalls ss.agents := by
  simp only [preStage1]
  split_ifs <;> simp [spawnSubagent, agentsCalls_append]

theorem preStage1_agents_ne_nil (e : Event) (now : Nat) (ss : SessionState) (aCtr : Nat)
    (used : List String) : (preStage1 e now ss aCtr used).2.1.agents ≠ [] := by
  simp only [preStage1]
  split_ifs with h1 h2
  · simp [spawnSubagent]
  · simp [spawnSubagent]
  · intro hc
    have hlen := congrArg List.length hc
    rw [setMainModel_length] at hlen
    exact gocma_agents_ne_nil _ _ _ _ (List.length_eq_zero.mp hlen)
  · exact gocma_agents_ne_nil _ _ _ _

theorem preStage2_stats_le (e : Event) (tcCtr : Nat) (ss5 : SessionState) :
    statsLe ss5.stats (preStage2 e tcCtr ss5).1.stats := by
  unfold preStage2
  cases hidx : findActiveAgentIdx ss5.agents with
  | none => exact statsLe_refl _
  | some idx =>
    simp only []
    refine statsLe_trans ?_ (by simpa using trackFile_stats_le _ e.tool_name e.tool_input e.timestamp)
    simp [statsLe]

theorem preStage2_spec (e : Event) (tcCtr : Nat) (ss5 : SessionState)
    (h : ss5.agents ≠ []) (hfresh : ∀ tc ∈ agentsCalls ss5.agents, tc.id ≠ tcCtr) :
    alookup (preStage2 e tcCtr ss5).1.pendingToolCalls e.tool_name = some tcCtr ∧
    callFind (preStage2 e tcCtr ss5).1.agents tcCtr = some (newToolCall e tcCtr) ∧
    (∀ j, j ≠ tcCtr → callFind (preStage2 e tcCtr ss5).1.agents j = callFind ss5.agents j) := by
  obtain ⟨idx, hidx⟩ := findActiveAgentIdx_isSome_of_ne_nil h
  unfold preStage2
  rw [hidx]
  simp only [addTimeline_pending, trackFile_pending, addTimeline_agents, trackFile_agents]
  refine ⟨alookup_aset_self _ _ _, ?_, ?_⟩
  · exact @callFind_modifyIdx_push_self _ idx (newToolCall e tcCtr) _ (fun a => rfl)
      (findActiveAgentIdx_lt hidx) (by simpa [newToolCall] using hfresh)
  · intro j hj
    exact @callFind_modifyIdx_push_ne _ idx (newToolCall e tcCtr) _ (fun a => rfl) j
      (by simpa [newToolCall] using hj)

/-! ### Stage lemmas for the `post` handler -/

theorem postPending_none (e : Event) (ss1 : SessionState)
    (hp : alookup ss1.pendingToolCalls e.tool_name = none) :
    postPendingStep e ss1 = ss1 := by
  unfold postPendingStep
  rw [hp]

theorem postPending_found (e : Event) (ss1 : SessionState) {i : Nat} {tc0 : ToolCall}
    (hp : alookup ss1.pendingToolCalls e.tool_name = some i)
    (hf : callFind ss1.agents i = some tc0) :
    callFind (postPendingStep e ss1).agents i = some (completeCall e tc0) ∧
    (∀ j, j ≠ i → callFind (postPendingStep e ss1).agents j = callFind ss1.agents j) := by
  unfold postPendingStep
  split
  · next pendingId heq =>
    rw [hp] at heq
    injection heq with heq
    subst heq
    split
    · next tcf heqf =>
      constructor
      · split_ifs <;> exact callFind_updateCallById_self (fun tc => rfl) hf
      · intro j hj
        split_ifs <;> exact callFind_updateCallById_ne hj (fun tc => rfl)
    · next heqf => rw [hf] at heqf; cases heqf
  · next heq => rw [hp] at heq; cases heq

theorem postPending_stats_le (e : Event) (ss1 : SessionState) :
    statsLe ss1.stats (postPendingStep e ss1).stats := by
  unfold postPendingStep
  split
  · split
    · split_ifs <;> simp [statsLe]
    · exact statsLe_refl _
  · exact statsLe_refl _

theorem postPending_pending_nodup (e : Event) (ss1 : SessionState)
    (h : (ss1.pendingToolCalls.map Prod.fst).Nodup) :
    ((postPendingStep e ss1).pendingToolCalls.map Prod.fst).Nodup := by
  unfold postPendingStep
  split
  · split
    · split_ifs <;> exact nodup_keys_aerase _ h
    · exact nodup_keys_aerase _ h
  · exact h

theorem postBody_stats_le (e : Event) (ss0 : SessionState) :
    statsLe ss0.stats (postBody e ss0).stats := by
  simp only [postBody]
  have h1 : statsLe ss0.stats (postPendingStep e (reactivateIfEnded ss0 e.timestamp)).stats := by
    rw [← reactivate_stats ss0 e.timestamp]
    exact postPending_stats_le _ _
  generalize findActiveAgentIdx (reactivateIfEnded ss0 e.timestamp).agents = oidx
  cases oidx with
  | none => exact statsLe_of_eq (reactivate_stats ss0 e.timestamp).symm
  | some idx =>
    simp only [addTimeline_stats]
    split_ifs <;> (refine statsLe_trans h1 ?_; simp [statsLe])

theorem postBody_pending_nodup (e : Event) (ss0 : SessionState)
    (h : (ss0.pendingToolCalls.map Prod.fst).Nodup) :
    ((postBody e ss0).pendingToolCalls.map Prod.fst).Nodup := by
  simp only [postBody]
  have h1 := postPending_pending_nodup e (reactivateIfEnded ss0 e.timestamp) (by simpa using h)
  generalize findActiveAgentIdx (reactivateIfEnded ss0 e.timestamp).agents = oidx
  cases oidx with
  | none => simpa using h
  | some idx =>
    simp only [addTimeline_pending]
    split_ifs <;> simpa using h1

theorem postBody_agentsCalls_nopending (e : Event) (ss0 : SessionState)
    (hp : alookup ss0.pendingToolCalls e.tool_name = none) :
    agentsCalls (postBody e ss0).agents = agentsCalls ss0.agents := by
  simp only [postBody]
  have hstep : postPendingStep e (reactivateIfEnded ss0 e.timestamp) =
      reactivateIfEnded ss0 e.timestamp :=
    postPending_none e _ (by simpa using hp)
  generalize findActiveAgentIdx (reactivateIfEnded ss0 e.timestamp).agents = oidx
  cases oidx with
  | none => simp
  | some idx =>
    simp only [addTimeline_agents]
    split_ifs <;> rw [hstep] <;>
      simp [agentsCalls_completeLastActiveSub]

theorem postBody_calls_found (e : Event) (ss0 : SessionState) {i : Nat} {tc0 : ToolCall}
    (hp : alookup ss0.pendingToolCalls e.tool_name = some i)
    (hf : callFind ss0.agents i = some tc0)
    (hnil : ss0.agents ≠ []) :
    callFind (postBody e ss0).agents i = some (completeCall e tc0) ∧
    (∀ j, j ≠ i → callFind (postBody e ss0).agents j = callFind ss0.agents j) := by
  have hre : callFind (reactivateIfEnded ss0 e.timestamp).agents i = some tc0 := by
    rw [callFind_congr (reactivate_agentsCalls ss0 e.timestamp) i]
    exact hf
  have hpend : alookup (reactivateIfEnded ss0 e.timestamp).pendingToolCalls e.tool_name = some i := by
    simpa using hp
  obtain ⟨hfound, hframe⟩ := postPending_found e (reactivateIfEnded ss0 e.timestamp) hpend hre
  simp only [postBody]
  generalize hM : findActiveAgentIdx (reactivateIfEnded ss0 e.timestamp).agents = oidx
  cases oidx with
  | none =>
    obtain ⟨idx, hidx⟩ := findActiveAgentIdx_isSome_of_ne_nil
      (reactivate_agents_ne_nil e.timestamp hnil)
    rw [hM] at hidx
    cases hidx
  | some idx =>
    simp only [addTimeline_agents]
    constructor
    · split_ifs with htask
      · rw [callFind_congr (agentsCalls_completeLastActiveSub _ _) i]
        exact hfound
      · exact hfound
    · intro j hj
      have hj2 : callFind (postPendingStep e (reactivateIfEnded ss0 e.timestamp)).agents j =
          callFind ss0.agents j := by
        rw [hframe j hj, callFind_congr (reactivate_agentsCalls ss0 e.timestamp) j]
      split_ifs with htask
      · rw [callFind_congr (agentsCalls_completeLastActiveSub _ _) j]
        exact hj2
      · exact hj2

/-! ### Composition lemmas for the `pre` body and the other bodies -/

theorem preBody_stats_le (e : Event) (now : Nat) (ss0 : SessionState) (aCtr tcCtr : Nat)
    (used : List String) : statsLe ss0.stats (preBody e now ss0 aCtr tcCtr used).1.stats := by
  unfold preBody
  refine statsLe_trans (statsLe_of_eq (preStage1_stats e now ss0 aCtr used).symm) ?_
  exact preStage2_stats_le e tcCtr _

theorem preBody_pending_nodup (e : Event) (now : Nat) (ss0 : SessionState) (aCtr tcCtr : Nat)
    (used : List String) (h : (ss0.pendingToolCalls.map Prod.fst).Nodup) :
    ((preBody e now ss0 aCtr tcCtr used).1.pendingToolCalls.map Prod.fst).Nodup := by
  simp only [preBody, preStage2]
  generalize findActiveAgentIdx (preStage1 e now ss0 aCtr used).2.1.agents = oidx
  cases oidx with
  | none => rw [preStage1_pending]; exact h
  | some idx =>
    simp only [addTimeline_pending, trackFile_pending]
    refine nodup_keys_aset _ _ ?_
    rw [preStage1_pending]
    exact h

theorem preBody_spec (e : Event) (now : Nat) (ss0 : SessionState) (aCtr tcCtr : Nat)
    (used : List String) (hfresh : ∀ tc ∈ agentsCalls ss0.agents, tc.id ≠ tcCtr) :
    alookup (preBody e now ss0 aCtr tcCtr used).1.pendingToolCalls e.tool_name = some tcCtr ∧
    callFind (preBody e now ss0 aCtr tcCtr used).1.agents tcCtr = some (newToolCall e tcCtr) ∧
    (∀ j, j ≠ tcCtr →
      callFind (preBody e now ss0 aCtr tcCtr used).1.agents j = callFind ss0.agents j) := by
  unfold preBody
  have h1 := preStage1_agentsCalls e now ss0 aCtr used
  have hs := preStage2_spec e tcCtr (preStage1 e now ss0 aCtr used).2.1
    (preStage1_agents_ne_nil e now ss0 aCtr used)
    (by rw [h1]; exact hfresh)
  refine ⟨hs.1, hs.2.1, ?_⟩
  intro j hj
  rw [hs.2.2 j hj]
  exact callFind_congr h1 j

theorem notifBody_stats_le (e : Event) (ss0 : SessionState) :
    statsLe ss0.stats (notifBody e ss0).stats := by
  simp only [notifBody]
  generalize findActiveAgentIdx (reactivateIfEnded ss0 e.timestamp).agents = oidx
  cases oidx <;> simp [statsLe]

theorem notifBody_pending (e : Event) (ss0 : SessionState) :
    (notifBody e ss0).pendingToolCalls = ss0.pendingToolCalls := by
  simp only [notifBody]
  generalize findActiveAgentIdx (reactivateIfEnded ss0 e.timestamp).agents = oidx
  cases oidx <;> simp

@[simp] theorem endBody_stats (e : Event) (ss : SessionState) :
    (endBody e ss).stats = ss.stats := rfl

@[simp] theorem endBody_pending (e : Event) (ss : SessionState) :
    (endBody e ss).pendingToolCalls = ss.pendingToolCalls := rfl

/-! ### Backfill and misc field lemmas -/

@[simp] theorem backfill_stats (src : String) (ss : SessionState) :
    (backfillSource src ss).stats = ss.stats := by
  unfold backfillSource; split_ifs <;> rfl

@[simp] theorem backfill_agents (src : String) (ss : SessionState) :
    (backfillSource src ss).agents = ss.agents := by
  unfold backfillSource; split_ifs <;> rfl

@[simp] theorem backfill_pending (src : String) (ss : SessionState) :
    (backfillSource src ss).pendingToolCalls = ss.pendingToolCalls := by
  unfold backfillSource; split_ifs <;> rfl

@[simp] theorem backfill_lastActivity (src : String) (ss : SessionState) :
    (backfillSource src ss).lastActivity = ss.lastActivity := by
  unfold backfillSource; split_ifs <;> rfl

theorem modifyIdx_length (f : Agent → Agent) (l : List Agent) (idx : Nat) :
    (modifyIdx f l idx).length = l.length := by
  induction l generalizing idx with
  | nil => rfl
  | cons a rest ih =>
    cases idx with
    | zero => rfl
    | succ n => simp [modifyIdx, ih]

theorem preBody_agents_ne_nil (e : Event) (now : Nat) (ss0 : SessionState) (aCtr tcCtr : Nat)
    (used : List String) : (preBody e now ss0 aCtr tcCtr used).1.agents ≠ [] := by
  simp only [preBody, preStage2]
  generalize findActiveAgentIdx (preStage1 e now ss0 aCtr used).2.1.agents = oidx
  cases oidx with
  | none => exact preStage1_agents_ne_nil e now ss0 aCtr used
  | some idx =>
    simp only [addTimeline_agents, trackFile_agents]
    intro hc
    have := congrArg List.length hc
    rw [modifyIdx_length] at this
    exact preStage1_agents_ne_nil e now ss0 aCtr used (List.length_eq_zero.mp this)

/-! ### Carry-over and totals lemmas -/

def statsOf (l : List (String × SessionState)) : List Stats := l.map (fun p => p.2.stats)

def addCarryList (c : CarryStats) (l : List Stats) : CarryStats := l.foldl addCarry c

theorem addCarry_comm_assoc (c : CarryStats) (x y : Stats) :
    addCarry (addCarry c x) y = addCarry (addCarry c y) x := by
  simp only [addCarry, CarryStats.mk.injEq]
  omega

theorem addCarryList_pull (c : CarryStats) (x : Stats) (l : List Stats) :
    addCarryList (addCarry c x) l = addCarry (addCarryList c l) x := by
  induction l generalizing c with
  | nil => rfl
  | cons s rest ih =>
    show addCarryList (addCarry (addCarry c x) s) rest = _
    rw [addCarry_comm_assoc, ih]
    rfl

theorem totals_def (s : WorkerState) :
    getPublicStateTotals s = addCarryList s.carryOver (statsOf s.sessions) := by
  unfold getPublicStateTotals addCarryList statsOf
  rw [List.foldl_map]

theorem statsOf_aerase_lookup {l : List (String × SessionState)} {k : String}
    {v : SessionState} (c : CarryStats) (h : alookup l k = some v) :
    addCarryList c (statsOf l) = addCarry (addCarryList c (statsOf (aerase l k))) v.stats := by
  induction l generalizing c with
  | nil => simp [alookup] at h
  | cons p rest ih =>
    obtain ⟨k1, v1⟩ := p
    simp only [alookup] at h
    by_cases hk : k1 = k
    · rw [if_pos hk] at h
      injection h with h
      simp only [aerase, if_pos hk]
      show addCarryList (addCarry c v1.stats) (statsOf rest) =
        addCarry (addCarryList c (statsOf rest)) v.stats
      rw [h, addCarryList_pull]
    · rw [if_neg hk] at h
      simp only [aerase, if_neg hk]
      show addCarryList (addCarry c v1.stats) (statsOf rest) =
        addCarry (addCarryList (addCarry c v1.stats) (statsOf (aerase rest k))) v.stats
      exact ih _ h

theorem statsOf_aset_samestats {l : List (String × SessionState)} {k : String}
    {v w : SessionState} (c : CarryStats) (h : alookup l k = some v)
    (hw : w.stats = v.stats) :
    addCarryList c (statsOf (aset l k w)) = addCarryList c (statsOf l) := by
  induction l generalizing c with
  | nil => simp [alookup] at h
  | cons p rest ih =>
    obtain ⟨k1, v1⟩ := p
    simp only [alookup] at h
    by_cases hk : k1 = k
    · rw [if_pos hk] at h
      injection h with h
      simp only [aset, if_pos hk]
      show addCarryList (addCarry c w.stats) (statsOf rest) =
        addCarryList (addCarry c v1.stats) (statsOf rest)
      rw [hw, h]
    · rw [if_neg hk] at h
      simp only [aset, if_neg hk]
      show addCarryList (addCarry c v1.stats) (statsOf (aset rest k w)) =
        addCarryList (addCarry c v1.stats) (statsOf rest)
      exact ih _ h

theorem statsOf_aset_none {l : List (String × SessionState)} {k : String}
    (w : SessionState) (h : alookup l k = none) :
    statsOf (aset l k w) = statsOf l ++ [w.stats] := by
  induction l with
  | nil => rfl
  | cons p rest ih =>
    obtain ⟨k1, v1⟩ := p
    simp only [alookup] at h
    by_cases hk : k1 = k
    · rw [if_pos hk] at h; cases h
    · rw [if_neg hk] at h
      simp only [aset, if_neg hk, statsOf, List.map_cons]
      have := ih h
      simp only [statsOf] at this
      rw [this]
      rfl

theorem statsOf_amodify_backfill (src : String) (l : List (String × SessionState)) (k : String) :
    statsOf (amodify (backfillSource src) l k) = statsOf l := by
  induction l with
  | nil => rfl
  | cons p rest ih =>
    obtain ⟨k1, v1⟩ := p
    simp only [amodify]
    by_cases hk : k1 = k
    · rw [if_pos hk]
      simp [statsOf]
    · rw [if_neg hk]
      simp only [statsOf, List.map_cons]
      have := ih
      simp only [statsOf] at this
      rw [this]

theorem addCarryList_append (c : CarryStats) (l1 l2 : List Stats) :
    addCarryList c (l1 ++ l2) = addCarryList (addCarryList c l1) l2 := by
  unfold addCarryList
  rw [List.foldl_append]

theorem addCarry_zero_counters (t : CarryStats) {st : Stats}
    (h : st.toolCalls = 0 ∧ st.filesAccessed = 0 ∧ st.estimatedTokens = 0 ∧
      st.linesAdded = 0 ∧ st.linesRemoved = 0 ∧ st.turns = 0 ∧ st.errors = 0) :
    addCarry t st = t := by
  obtain ⟨h1, h2, h3, h4, h5, h6, h7⟩ := h
  simp [addCarry, h1, h2, h3, h4, h5, h6, h7]

theorem createSessionState_zero_counters (sid : String) (t : Option Nat) (src : String) :
    (createSessionState sid t src).stats.toolCalls = 0 ∧
    (createSessionState sid t src).stats.filesAccessed = 0 ∧
    (createSessionState sid t src).stats.estimatedTokens = 0 ∧
    (createSessionState sid t src).stats.linesAdded = 0 ∧
    (createSessionState sid t src).stats.linesRemoved = 0 ∧
    (createSessionState sid t src).stats.turns = 0 ∧
    (createSessionState sid t src).stats.errors = 0 := by
  simp [createSessionState]

/-- The session_start handler (also when it resets an existing session)
leaves the public totals unchanged: the deleted session's stats are folded
into carry-over and the fresh session starts at zero. -/
theorem totals_processSessionStart (e : Event) (now : Nat) (s : WorkerState)
    (hnd : SessionKeysNodup s) :
    getPublicStateTotals (processSessionStart e now s) = getPublicStateTotals s := by
  simp only [processSessionStart, startReset]
  cases h : alookup s.sessions (eventSid e) with
  | none =>
    have hlook := lookup_gocs_self s (eventSid e) e.timestamp (detectSource e)
    rw [hlook]
    rw [totals_def, totals_def]
    simp only [gocs_carryOver]
    have hbase : statsOf (getOrCreateSession s (eventSid e) e.timestamp (detectSource e)).sessions =
        statsOf s.sessions ++ [(createSessionState (eventSid e) e.timestamp (detectSource e)).stats] := by
      simp only [getOrCreateSession, h, Option.isSome_none, Bool.false_eq_true, if_false]
      rw [statsOf_amodify_backfill, statsOf_aset_none _ h]
    have hsame : (getOrCreateMainAgent (gocsVal s (eventSid e) e.timestamp (detectSource e))
        s.agentIdCounter s.usedNames now).2.1.stats =
        (gocsVal s (eventSid e) e.timestamp (detectSource e)).stats := gocma_stats _ _ _ _
    simp only [gocs_agentIdCounter, gocs_usedNames]
    rw [statsOf_aset_samestats _ hlook hsame]
    rw [hbase, addCarryList_append]
    show addCarry _ _ = _
    rw [addCarry_zero_counters _ (createSessionState_zero_counters _ _ _)]
  | some old =>
    set s1 : WorkerState :=
      { s with carryOver := addCarry s.carryOver old.stats,
               sessions := aerase s.sessions (eventSid e) } with hs1
    have hnone : alookup s1.sessions (eventSid e) = none := alookup_aerase_self hnd
    have hlook := lookup_gocs_self s1 (eventSid e) e.timestamp (detectSource e)
    rw [hlook]
    rw [totals_def, totals_def]
    simp only [gocs_carryOver]
    have hbase : statsOf (getOrCreateSession s1 (eventSid e) e.timestamp (detectSource e)).sessions =
        statsOf s1.sessions ++ [(createSessionState (eventSid e) e.timestamp (detectSource e)).stats] := by
      simp only [getOrCreateSession, hnone, Option.isSome_none, Bool.false_eq_true, if_false]
      rw [statsOf_amodify_backfill, statsOf_aset_none _ hnone]
    have hsame : (getOrCreateMainAgent (gocsVal s1 (eventSid e) e.timestamp (detectSource e))
        s1.agentIdCounter s1.usedNames now).2.1.stats =
        (gocsVal s1 (eventSid e) e.timestamp (detectSource e)).stats := gocma_stats _ _ _ _
    simp only [gocs_agentIdCounter, gocs_usedNames]
    rw [statsOf_aset_samestats _ hlook hsame]
    rw [hbase, addCarryList_append]
    show addCarry _ _ = _
    rw [addCarry_zero_counters _ (createSessionState_zero_counters _ _ _)]
    show addCarryList (addCarry s.carryOver old.stats) (statsOf (aerase s.sessions (eventSid e))) = _
    rw [addCarryList_pull]
    exact (statsOf_aerase_lookup s.carryOver h).symm

@[simp] theorem endStale_stats (now : Nat) (ss : SessionState) :
    (endStale now ss).stats = ss.stats := rfl

theorem pruneList_totals (now : Nat) (l : List (String × SessionState)) (co : CarryStats)
    (used : List String) (hng : ∀ p ∈ l, ghostSession now p.2 = false) :
    addCarryList (pruneList now l co used).2.1 (statsOf (pruneList now l co used).1) =
      addCarryList co (statsOf l) := by
  induction l generalizing co used with
  | nil => rfl
  | cons p rest ih =>
    obtain ⟨id, ss⟩ := p
    have hng_rest : ∀ q ∈ rest, ghostSession now q.2 = false :=
      fun q hq => hng q (List.mem_cons_of_mem _ hq)
    simp only [pruneList]
    split_ifs with h1 h2 h3
    · exact ih (addCarry co ss.stats) (releaseMainNames used ss.agents) hng_rest
    · have := hng (id, ss) (List.mem_cons_self _ _)
      simp only at this
      rw [this] at h2
      cases h2
    · show addCarryList (pruneList now rest co used).2.1
        ((endStale now ss).stats :: statsOf (pruneList now rest co used).1) = _
      show addCarryList (addCarry (pruneList now rest co used).2.1 (endStale now ss).stats)
        (statsOf (pruneList now rest co used).1) = _
      rw [addCarryList_pull, endStale_stats, ih co used hng_rest]
      show _ = addCarryList (addCarry co ss.stats) (statsOf rest)
      rw [addCarryList_pull]
    · show addCarryList (addCarry (pruneList now rest co used).2.1 ss.stats)
        (statsOf (pruneList now rest co used).1) = _
      rw [addCarryList_pull, ih co used hng_rest]
      show _ = addCarryList (addCarry co ss.stats) (statsOf rest)
      rw [addCarryList_pull]

theorem totals_prune (now : Nat) (s : WorkerState)
    (hng : ∀ p ∈ s.sessions, ghostSession now p.2 = false) :
    getPublicStateTotals (pruneStaleAndEndedSessions now s) = getPublicStateTotals s := by
  rw [totals_def, totals_def]
  exact pruneList_totals now s.sessions s.carryOver s.usedNames hng

/-- Per-session statistics counters never decrease across event processing,
for any session that survives and is not reset by a `session_start` of its
own id. -/
theorem stats_mono_processEvent (e : Event) (now : Nat) (s : WorkerState) (sid : String)
    (ss ss' : SessionState)
    (h1 : alookup s.sessions sid = some ss)
    (h2 : alookup (processEvent e now s).sessions sid = some ss')
    (hreset : ¬ (e.phase = some Phase.session_start ∧ eventSid e = sid)) :
    statsLe ss.stats ss'.stats := by
  have hval : ∀ t src, (gocsVal s sid t src).stats = ss.stats := by
    intro t src
    simp [gocsVal, h1]
  cases hph : e.phase with
  | none =>
    simp only [processEvent, hph] at h2
    rw [h1] at h2
    injection h2 with h2
    exact statsLe_of_eq (by rw [h2])
  | some ph =>
    cases ph with
    | session_start =>
      have hne : sid ≠ eventSid e := by
        intro hc
        exact hreset ⟨hph, hc.symm⟩
      simp only [processEvent, hph] at h2
      rw [lookup_processSessionStart_ne e now s hne, h1] at h2
      injection h2 with h2
      exact statsLe_of_eq (by rw [h2])
    | session_end =>
      by_cases hsid : sid = eventSid e
      · subst hsid
        simp only [processEvent, hph] at h2
        rw [lookup_processSessionEnd_self, h1] at h2
        injection h2 with h2
        rw [← h2]
        exact statsLe_of_eq rfl
      · simp only [processEvent, hph] at h2
        rw [lookup_processSessionEnd_ne e s hsid, h1] at h2
        injection h2 with h2
        exact statsLe_of_eq (by rw [h2])
    | pre =>
      by_cases hsid : sid = eventSid e
      · subst hsid
        simp only [processEvent, hph] at h2
        rw [lookup_processPre_self] at h2
        injection h2 with h2
        rw [← h2]
        rw [← hval e.timestamp (detectSource e)]
        exact preBody_stats_le e now _ s.agentIdCounter s.tcIdCounter s.usedNames
      · simp only [processEvent, hph] at h2
        rw [lookup_processPre_ne e now s hsid, h1] at h2
        injection h2 with h2
        exact statsLe_of_eq (by rw [h2])
    | post =>
      by_cases hsid : sid = eventSid e
      · subst hsid
        simp only [processEvent, hph] at h2
        rw [lookup_processPost_self] at h2
        injection h2 with h2
        rw [← h2]
        rw [← hval e.timestamp (detectSource e)]
        exact postBody_stats_le e _
      · simp only [processEvent, hph] at h2
        rw [lookup_processPost_ne e s hsid, h1] at h2
        injection h2 with h2
        exact statsLe_of_eq (by rw [h2])
    | notification =>
      by_cases hsid : sid = eventSid e
      · subst hsid
        simp only [processEvent, hph] at h2
        rw [lookup_processNotification_self] at h2
        injection h2 with h2
        rw [← h2]
        rw [← hval e.timestamp (detectSource e)]
        exact notifBody_stats_le e _
      · simp only [processEvent, hph] at h2
        rw [lookup_processNotification_ne e s hsid, h1] at h2
        injection h2 with h2
        exact statsLe_of_eq (by rw [h2])

/-! ### Session-level tool-call accessors and the pre/post round trip -/

/-- All tool-call records of one session in the worker state. -/
def sessionCalls (s : WorkerState) (sid : String) : List ToolCall :=
  match alookup s.sessions sid with
  | some ss => agentsCalls ss.agents
  | none => []

/-- The first tool call with a given id within one session. -/
def callAt (s : WorkerState) (sid : String) (j : Nat) : Option ToolCall :=
  (sessionCalls s sid).find? (fun tc => decide (tc.id = j))

theorem sessionCalls_of_lookup {s : WorkerState} {sid : String} {ss : SessionState}
    (h : alookup s.sessions sid = some ss) : sessionCalls s sid = agentsCalls ss.agents := by
  unfold sessionCalls
  rw [h]

theorem gocsVal_of_lookup {s : WorkerState} {sid : String} {ss : SessionState}
    (t : Option Nat) (src : String) (h : alookup s.sessions sid = some ss) :
    gocsVal s sid t src = backfillSource src ss := by
  unfold gocsVal
  rw [h]
  rfl

theorem pre_post_round_trip (e1 e2 : Event) (now1 now2 : Nat) (s : WorkerState) (sid : String)
    (hp1 : e1.phase = some Phase.pre) (hp2 : e2.phase = some Phase.post)
    (hs1 : eventSid e1 = sid) (hs2 : eventSid e2 = sid)
    (htn : e2.tool_name = e1.tool_name) (hbel : TcIdsBelow s) :
    callAt (processEvent e1 now1 s) sid s.tcIdCounter = some (newToolCall e1 s.tcIdCounter) ∧
    callAt (processEvent e2 now2 (processEvent e1 now1 s)) sid s.tcIdCounter =
      some (completeCall e2 (newToolCall e1 s.tcIdCounter)) ∧
    (∀ j, j ≠ s.tcIdCounter →
      callAt (processEvent e2 now2 (processEvent e1 now1 s)) sid j =
        callAt (processEvent e1 now1 s) sid j) := by
  subst hs1
  have hproc1 : processEvent e1 now1 s = processPre e1 now1 s := by
    simp [processEvent, hp1]
  have hfresh : ∀ tc ∈ agentsCalls (gocsVal s (eventSid e1) e1.timestamp (detectSource e1)).agents,
      tc.id ≠ s.tcIdCounter := by
    intro tc htc
    cases hl : alookup s.sessions (eventSid e1) with
    | some ssOld =>
      rw [gocsVal_of_lookup _ _ hl, backfill_agents] at htc
      have := hbel _ (alookup_mem hl) tc htc
      omega
    | none =>
      unfold gocsVal at htc
      rw [hl] at htc
      simp [agentsCalls, createSessionState] at htc
  obtain ⟨hpend, hcall, hframe⟩ :=
    preBody_spec e1 now1 (gocsVal s (eventSid e1) e1.timestamp (detectSource e1))
      s.agentIdCounter s.tcIdCounter s.usedNames hfresh
  have hlookA := lookup_processPre_self e1 now1 s
  have hA : callAt (processEvent e1 now1 s) (eventSid e1) s.tcIdCounter =
      some (newToolCall e1 s.tcIdCounter) := by
    rw [hproc1]
    unfold callAt
    rw [sessionCalls_of_lookup hlookA, ← callFind_eq]
    exact hcall
  have hproc2 : processEvent e2 now2 (processEvent e1 now1 s) =
      processPost e2 (processEvent e1 now1 s) := by
    simp [processEvent, hp2]
  have hsid21 : eventSid e2 = eventSid e1 := hs2
  have hlookA2 : alookup (processEvent e1 now1 s).sessions (eventSid e2) =
      some (preBody e1 now1 (gocsVal s (eventSid e1) e1.timestamp (detectSource e1))
        s.agentIdCounter s.tcIdCounter s.usedNames).1 := by
    rw [hsid21, hproc1]
    exact hlookA
  have hB := gocsVal_of_lookup e2.timestamp (detectSource e2) hlookA2
  have hpendB : alookup (gocsVal (processEvent e1 now1 s) (eventSid e2) e2.timestamp
      (detectSource e2)).pendingToolCalls e2.tool_name = some s.tcIdCounter := by
    rw [hB, backfill_pending, htn]
    exact hpend
  have hagB : agentsCalls (gocsVal (processEvent e1 now1 s) (eventSid e2) e2.timestamp
      (detectSource e2)).agents =
      agentsCalls (preBody e1 now1 (gocsVal s (eventSid e1) e1.timestamp (detectSource e1))
        s.agentIdCounter s.tcIdCounter s.usedNames).1.agents := by
    rw [hB, backfill_agents]
  have hcallB : callFind (gocsVal (processEvent e1 now1 s) (eventSid e2) e2.timestamp
      (detectSource e2)).agents s.tcIdCounter = some (newToolCall e1 s.tcIdCounter) := by
    rw [callFind_congr hagB]
    exact hcall
  have hnilB : (gocsVal (processEvent e1 now1 s) (eventSid e2) e2.timestamp
      (detectSource e2)).agents ≠ [] := by
    rw [hB, backfill_agents]
    exact preBody_agents_ne_nil e1 now1 _ _ _ _
  obtain ⟨hfound, hframeB⟩ := postBody_calls_found e2 _ hpendB hcallB hnilB
  have hlookB := lookup_processPost_self e2 (processEvent e1 now1 s)
  refine ⟨hA, ?_, ?_⟩
  · rw [hproc2]
    unfold callAt
    rw [← hsid21]
    rw [sessionCalls_of_lookup hlookB, ← callFind_eq]
    exact hfound
  · intro j hj
    rw [hproc2]
    unfold callAt
    rw [← hsid21]
    rw [sessionCalls_of_lookup hlookB, ← callFind_eq]
    rw [sessionCalls_of_lookup hlookA2, ← callFind_eq]
    rw [hframeB j hj]
    exact callFind_congr hagB j

theorem post_unmatched (e : Event) (now : Nat) (s : WorkerState) (sid : String)
    (hp : e.phase = some Phase.post) (hs : eventSid e = sid)
    (hnp : ∀ ss, alookup s.sessions sid = some ss →
      alookup ss.pendingToolCalls e.tool_name = none) :
    sessionCalls (processEvent e now s) sid = sessionCalls s sid := by
  subst hs
  have hproc : processEvent e now s = processPost e s := by
    simp [processEvent, hp]
  rw [hproc]
  rw [sessionCalls_of_lookup (lookup_processPost_self e s)]
  cases hl : alookup s.sessions (eventSid e) with
  | some ss0 =>
    rw [postBody_agentsCalls_nopending]
    · rw [gocsVal_of_lookup _ _ hl, backfill_agents, sessionCalls_of_lookup hl]
    · rw [gocsVal_of_lookup _ _ hl, backfill_pending]
      exact hnp ss0 hl
  | none =>
    rw [postBody_agentsCalls_nopending]
    · unfold sessionCalls
      rw [hl]
      unfold gocsVal
      rw [hl]
      simp only [Option.getD_none, backfill_agents]
      simp [agentsCalls, createSessionState]
    · unfold gocsVal
      rw [hl]
      simp only [Option.getD_none, backfill_pending]
      simp [createSessionState, alookup]

/-! ### Main-agent revival characterization (for C6) -/

theorem find?_main_reviveMain (l : List Agent) :
    (reviveMain l).find? (fun a => decide (a.type = AgentType.main)) =
      ((l.find? (fun a => decide (a.type = AgentType.main))).map
        (fun a => if a.status = AgentStatus.completed then
          { a with status := AgentStatus.active, completedAt := none } else a)) := by
  induction l with
  | nil => rfl
  | cons a rest ih =>
    by_cases h : a.type = AgentType.main
    · by_cases h2 : a.status = AgentStatus.completed
      · rw [reviveMain, if_pos h, if_pos h2]
        rw [List.find?_cons_of_pos _ (by simp [h]), List.find?_cons_of_pos _ (by simp [h])]
        simp [h2]
      · rw [reviveMain, if_pos h, if_neg h2]
        rw [List.find?_cons_of_pos _ (by simp [h])]
        simp [h2]
    · rw [reviveMain, if_neg h]
      rw [List.find?_cons_of_neg _ (by simp [h]), List.find?_cons_of_neg _ (by simp [h])]
      exact ih

/-- C6: `reactivateIfEnded` on an ended session flips it to active, clears
the end timestamp, stamps last-activity, and revives a completed main
agent (status back to active, completion timestamp cleared); on an
already-active session it changes nothing but the last-activity timestamp. -/
theorem c6_reactivate_spec :
    (∀ (ss : SessionState) (t : Option Nat), ss.session.status = SessionStatus.ended →
      (reactivateIfEnded ss t).session.status = SessionStatus.active ∧
      (reactivateIfEnded ss t).session.endedAt = none ∧
      (reactivateIfEnded ss t).lastActivity = t ∧
      (∀ m, ss.agents.find? (fun a => decide (a.type = AgentType.main)) = some m →
        m.status = AgentStatus.completed →
        (reactivateIfEnded ss t).agents.find? (fun a => decide (a.type = AgentType.main)) =
          some { m with status := AgentStatus.active, completedAt := none })) ∧
    (∀ (ss : SessionState) (t : Option Nat), ss.session.status = SessionStatus.active →
      reactivateIfEnded ss t = { ss with lastActivity := t }) := by
  constructor
  · intro ss t h
    rw [reactivateIfEnded, if_pos h]
    refine ⟨rfl, rfl, rfl, ?_⟩
    intro m hm hcomp
    show (reviveMain ss.agents).find? (fun a => decide (a.type = AgentType.main)) = _
    rw [find?_main_reviveMain, hm]
    simp [hcomp]
  · intro ss t h
    rw [reactivateIfEnded, if_neg (by rw [h]; intro hc; cases hc)]

def wMainCompleted : Agent :=
  { id := 0, name := "Nova", color := "#ff6b6b", shape := "sphere", type := AgentType.main,
    subagentType := none, model := none, parentId := none, sessionId := "s1",
    source := "claudecode", status := AgentStatus.completed, spawnedAt := 1,
    completedAt := some 50, toolCalls := [], toolCallCount := 0 }

def wMetaEnded : SessionMeta :=
  { id := "s1", startedAt := some 1, status := SessionStatus.ended, endedAt := some 50,
    source := "claudecode", model := none }

def wSessEnded : SessionState :=
  { session := wMetaEnded, agents := [wMainCompleted], timeline := [], files := [],
    stats := { startedAt := some 1 }, pendingToolCalls := [], lastActivity := some 1 }

def wMetaActive : SessionMeta :=
  { id := "s2", startedAt := some 1, status := SessionStatus.active, endedAt := none,
    source := "claudecode", model := none }

def wSessActive : SessionState :=
  { session := wMetaActive, agents := [], timeline := [], files := [],
    stats := { startedAt := some 1 }, pendingToolCalls := [], lastActivity := some 1 }

theorem c6_witness :
    (wSessEnded.session.status = SessionStatus.ended ∧
      ((reactivateIfEnded wSessEnded (some 99)).session.status = SessionStatus.active ∧
        (reactivateIfEnded wSessEnded (some 99)).session.endedAt = none ∧
        (reactivateIfEnded wSessEnded (some 99)).lastActivity = some 99 ∧
        (∀ m, wSessEnded.agents.find? (fun a => decide (a.type = AgentType.main)) = some m →
          m.status = AgentStatus.completed →
          (reactivateIfEnded wSessEnded (some 99)).agents.find?
            (fun a => decide (a.type = AgentType.main)) =
            some { m with status := AgentStatus.active, completedAt := none }))) ∧
    (wSessActive.session.status = SessionStatus.active ∧
      reactivateIfEnded wSessActive (some 99) = { wSessActive with lastActivity := some 99 }) :=
  ⟨⟨by decide, c6_reactivate_spec.1 wSessEnded (some 99) (by decide)⟩,
   ⟨by decide, c6_reactivate_spec.2 wSessActive (some 99) (by decide)⟩⟩

/-! ### C8: timestamp handling -/

@[simp] theorem backfill_session_startedAt (src : String) (ss : SessionState) :
    (backfillSource src ss).session.startedAt = ss.session.startedAt := by
  unfold backfillSource; split_ifs <;> rfl

/-- C8 counterexample: a `session_start` event whose `timestamp` field is
missing yields a session whose start and last-activity timestamps are
absent (`none`), not the ingestion time (`processEvent` is invoked here at
ingestion-clock 99, and `some 99` — or any `some t` — differs from the
stored `none`): the worker performs no timestamp defaulting. -/
theorem c8_counterexample :
    ((alookup (processEvent
        { phase := some Phase.session_start, session_id := some "s1" } 99
        initialState).sessions "s1").map
      (fun ss => (ss.session.startedAt, ss.lastActivity, ss.stats.startedAt))) =
      some (none, none, none) := by
  decide

/-- C8 (amended): the worker substitutes nothing for a missing timestamp —
an event with `timestamp` absent produces session state whose start,
last-activity and stats-start timestamps are all absent, for every
ingestion time `now`.  (Timestamp defaulting happens only in the
producers, which always attach their own `Date.now()` when building an
event.) -/
theorem c8_no_timestamp_default (e : Event) (now : Nat) (s : WorkerState)
    (hp : e.phase = some Phase.session_start) (ht : e.timestamp = none)
    (hnd : SessionKeysNodup s) :
    ∃ ss', alookup (processEvent e now s).sessions (eventSid e) = some ss' ∧
      ss'.session.startedAt = none ∧ ss'.lastActivity = none ∧
      ss'.stats.startedAt = none := by
  have hproc : processEvent e now s = processSessionStart e now s := by
    simp [processEvent, hp]
  rw [hproc, lookup_processSessionStart_self e now s hnd]
  refine ⟨_, rfl, ?_, ?_, ?_⟩
  · rw [gocma_session, backfill_session_startedAt]
    simp [createSessionState, ht]
  · rw [gocma_lastActivity, backfill_lastActivity]
    simp [createSessionState, ht]
  · rw [gocma_stats, backfill_stats]
    simp [createSessionState, ht]

def wEvNoTs : Event := { phase := some Phase.session_start, session_id := some "s2" }

theorem c8_witness :
    (wEvNoTs.phase = some Phase.session_start ∧ wEvNoTs.timestamp = none ∧
      SessionKeysNodup initialState) ∧
    (∃ ss', alookup (processEvent wEvNoTs 42 initialState).sessions (eventSid wEvNoTs) =
        some ss' ∧
      ss'.session.startedAt = none ∧ ss'.lastActivity = none ∧
      ss'.stats.startedAt = none) :=
  ⟨⟨rfl, rfl, by decide⟩,
   c8_no_timestamp_default wEvNoTs 42 initialState rfl rfl (by decide)⟩

/-! ### C9: administrative disconnect (spec-modelled) -/

theorem alookup_filter_of_pred {α β : Type} [DecidableEq α] {l : List (α × β)} {k : α}
    {v : β} (p : α × β → Bool) (h : alookup l k = some v) (hp : p (k, v) = true) :
    alookup (l.filter p) k = some v := by
  induction l with
  | nil => simp [alookup] at h
  | cons q rest ih =>
    obtain ⟨k1, v1⟩ := q
    simp only [alookup] at h
    by_cases hk : k1 = k
    · rw [if_pos hk] at h
      injection h with h
      subst h
      subst hk
      rw [List.filter_cons_of_pos hp]
      simp [alookup]
    · rw [if_neg hk] at h
      by_cases hq : p (k1, v1) = true
      · rw [List.filter_cons_of_pos hq]
        simp only [alookup]
        rw [if_neg hk]
        exact ih h
      · rw [List.filter_cons_of_neg (by simpa using hq)]
        exact ih h

theorem alookup_filter_of_not_pred {α β : Type} [DecidableEq α] {l : List (α × β)} {k : α}
    {v : β} (p : α × β → Bool) (hnd : (l.map Prod.fst).Nodup)
    (h : alookup l k = some v) (hp : p (k, v) = false) :
    alookup (l.filter p) k = none := by
  induction l with
  | nil => simp [alookup]
  | cons q rest ih =>
    obtain ⟨k1, v1⟩ := q
    simp only [List.map_cons, List.nodup_cons] at hnd
    simp only [alookup] at h
    by_cases hk : k1 = k
    · rw [if_pos hk] at h
      injection h with h
      subst h
      subst hk
      rw [List.filter_cons_of_neg (by simpa using hp)]
      apply alookup_eq_none_of_not_mem
      intro hc
      obtain ⟨q, hq, hq2⟩ := List.mem_map.mp hc
      exact hnd.1 (hq2 ▸ List.mem_map_of_mem Prod.fst (List.mem_of_mem_filter hq))
    · rw [if_neg hk] at h
      by_cases hq : p (k1, v1) = true
      · rw [List.filter_cons_of_pos hq]
        simp only [alookup]
        rw [if_neg hk]
        exact ih hnd.2 h
      · rw [List.filter_cons_of_neg (by simpa using hq)]
        exact ih hnd.2 h

/-- C9: the administrative disconnect removes exactly the sessions whose
source tag equals the given platform (spec-modelled handler, see
`disconnectSource`): sessions with a different source tag keep their exact
state and stay in the map, matching sessions are removed, and the rest of
the worker state (carry-over, name pool, counters) is untouched. -/
theorem c9_disconnect_frame (source : String) (s : WorkerState) :
    (∀ sid ss, alookup s.sessions sid = some ss → ss.session.source ≠ source →
      alookup (disconnectSource source s).sessions sid = some ss) ∧
    (∀ sid ss, SessionKeysNodup s → alookup s.sessions sid = some ss →
      ss.session.source = source →
      alookup (disconnectSource source s).sessions sid = none) ∧
    (disconnectSource source s).carryOver = s.carryOver ∧
    (disconnectSource source s).usedNames = s.usedNames ∧
    (disconnectSource source s).agentIdCounter = s.agentIdCounter := by
  refine ⟨?_, ?_, rfl, rfl, rfl⟩
  · intro sid ss h hne
    exact alookup_filter_of_pred _ h (by simpa using hne)
  · intro sid ss hnd h hsrc
    exact alookup_filter_of_not_pred _ hnd h (by simpa using hsrc)

def wSessDiscA : SessionState := createSessionState "s1" (some 1) "claudecode"

def wSessDiscB : SessionState := createSessionState "oc-2" (some 2) "opencode"

def wDisc : WorkerState :=
  { sessions := [("s1", wSessDiscA), ("oc-2", wSessDiscB)] }

theorem c9_witness :
    (SessionKeysNodup wDisc ∧
      alookup wDisc.sessions "s1" = some wSessDiscA ∧
      alookup wDisc.sessions "oc-2" = some wSessDiscB ∧
      wSessDiscA.session.source ≠ "opencode" ∧ wSessDiscB.session.source = "opencode") ∧
    (alookup (disconnectSource "opencode" wDisc).sessions "s1" = some wSessDiscA ∧
      alookup (disconnectSource "opencode" wDisc).sessions "oc-2" = none) :=
  ⟨⟨by decide, by decide, by decide, by decide, by decide⟩,
   ⟨(c9_disconnect_frame "opencode" wDisc).1 "s1" wSessDiscA (by decide) (by decide),
    (c9_disconnect_frame "opencode" wDisc).2.1 "oc-2" wSessDiscB (by decide) (by decide)
      (by decide)⟩⟩

/-! ### C1: tool-call tracking keyed by name -/

def wEvStart : Event :=
  { phase := some Phase.session_start, timestamp := some 1000, session_id := some "s1" }

def wEvBash : Event :=
  { phase := some Phase.pre, timestamp := some 2000, session_id := some "s1",
    tool_name := some "Bash" }

def wS1 : WorkerState := processEvent wEvStart 10 initialState

def wS2 : WorkerState := processEvent wEvBash 20 wS1

def wS3 : WorkerState := processEvent wEvBash 30 wS2

/-- C1 counterexample: after `session_start` and two `pre` events for tool
"Bash" with no intervening matching `post`, session "s1" holds TWO
ToolCall records of that name both in `executing` state (the second `pre`
overwrites the pending marker without completing the first call), refuting
the claimed at-most-one-executing invariant. -/
theorem c1_counterexample :
    ((sessionCalls wS3 "s1").filter
      (fun tc => decide (tc.tool = some "Bash" ∧ tc.status = TCStatus.executing))).length = 2 ∧
    ¬ ((sessionCalls wS3 "s1").filter
      (fun tc => decide (tc.tool = some "Bash" ∧ tc.status = TCStatus.executing))).length ≤ 1 := by
  constructor <;> decide

theorem pending_nodup_gocsVal {s : WorkerState} (h : PendingKeysNodup s)
    (sid : String) (t : Option Nat) (src : String) :
    ((gocsVal s sid t src).pendingToolCalls.map Prod.fst).Nodup := by
  unfold gocsVal
  cases hl : alookup s.sessions sid with
  | some ss =>
    simp only [Option.getD_some, backfill_pending]
    exact h _ (alookup_mem hl)
  | none =>
    simp only [Option.getD_none, backfill_pending]
    simp [createSessionState]

theorem pending_mem_gocs {s : WorkerState} {sid : String} {t : Option Nat} {src : String}
    {p : String × SessionState} (hp : p ∈ (getOrCreateSession s sid t src).sessions) :
    (∃ q ∈ s.sessions, p.2.pendingToolCalls = q.2.pendingToolCalls) ∨
      p.2.pendingToolCalls = [] := by
  unfold getOrCreateSession at hp
  by_cases hex : (alookup s.sessions sid).isSome
  · rw [if_pos hex] at hp
    rcases mem_amodify hp with hmem | ⟨q, hq, hpq⟩
    · exact Or.inl ⟨p, hmem, rfl⟩
    · exact Or.inl ⟨q, hq, by rw [hpq]; simp⟩
  · rw [if_neg hex] at hp
    rcases mem_amodify hp with hmem | ⟨q, hq, hpq⟩
    · rcases mem_aset hmem with hpc | hmem2
      · exact Or.inr (by rw [hpc]; simp [createSessionState])
      · exact Or.inl ⟨p, hmem2, rfl⟩
    · rcases mem_aset hq with hqc | hmem2
      · refine Or.inr ?_
        rw [hpq, hqc]
        simp [createSessionState]
      · exact Or.inl ⟨q, hmem2, by rw [hpq]; simp⟩

/-- C1 (amended): what the code does maintain is at most one PENDING tool
call per (session, tool name): the pending map is keyed by tool name, so
processing any event preserves key-uniqueness of every session's pending
map.  (Multiple ToolCall records of the same name can nevertheless all be
`executing`, as the counterexample shows — earlier calls are simply
orphaned.) -/
theorem c1_pending_key_unique (e : Event) (now : Nat) (s : WorkerState)
    (h : PendingKeysNodup s) : PendingKeysNodup (processEvent e now s) := by
  intro p hp
  cases hph : e.phase with
  | none =>
    simp only [processEvent, hph] at hp
    exact h p hp
  | some ph =>
    cases ph with
    | session_start =>
      simp only [processEvent, hph, processSessionStart] at hp
      have hs1 : PendingKeysNodup (startReset e s) := by
        intro q hq
        unfold startReset at hq
        split at hq
        · exact h q (mem_aerase hq)
        · exact h q hq
      split at hp
      · rcases pending_mem_gocs hp with ⟨q, hq, hpq⟩ | hnil
        · rw [hpq]; exact hs1 q hq
        · rw [hnil]; simp
      · next ss2 heq =>
        rcases mem_aset hp with hpe | hmem
        · rw [hpe]
          simp only [gocma_pending]
          have hg := lookup_gocs_self (startReset e s) (eventSid e) e.timestamp (detectSource e)
          rw [heq] at hg
          injection hg with hg
          rw [hg]
          exact pending_nodup_gocsVal hs1 _ _ _
        · rcases pending_mem_gocs hmem with ⟨q, hq, hpq⟩ | hnil
          · rw [hpq]; exact hs1 q hq
          · rw [hnil]; simp
    | session_end =>
      simp only [processEvent, hph, processSessionEnd] at hp
      cases hl : alookup s.sessions (eventSid e) with
      | none => rw [hl] at hp; exact h p hp
      | some ss =>
        rw [hl] at hp
        rcases mem_aset hp with hpe | hmem
        · rw [hpe]
          simp only [endBody_pending]
          exact h _ (alookup_mem hl)
        · exact h p hmem
    | pre =>
      simp only [processEvent, hph, processPre] at hp
      cases hl2 : alookup (getOrCreateSession s (eventSid e) e.timestamp
          (detectSource e)).sessions (eventSid e) with
      | none =>
        rw [hl2] at hp
        rcases pending_mem_gocs hp with ⟨q, hq, hpq⟩ | hnil
        · rw [hpq]; exact h q hq
        · rw [hnil]; simp
      | some ss2 =>
        rw [hl2] at hp
        rcases mem_aset hp with hpe | hmem
        · rw [hpe]
          have := lookup_gocs_self s (eventSid e) e.timestamp (detectSource e)
          rw [hl2] at this
          injection this with this
          refine preBody_pending_nodup e now ss2 _ _ _ ?_
          rw [this]
          exact pending_nodup_gocsVal h _ _ _
        · rcases pending_mem_gocs hmem with ⟨q, hq, hpq⟩ | hnil
          · rw [hpq]; exact h q hq
          · rw [hnil]; simp
    | post =>
      simp only [processEvent, hph, processPost] at hp
      cases hl2 : alookup (getOrCreateSession s (eventSid e) e.timestamp
          (detectSource e)).sessions (eventSid e) with
      | none =>
        rw [hl2] at hp
        rcases pending_mem_gocs hp with ⟨q, hq, hpq⟩ | hnil
        · rw [hpq]; exact h q hq
        · rw [hnil]; simp
      | some ss2 =>
        rw [hl2] at hp
        rcases mem_aset hp with hpe | hmem
        · rw [hpe]
          have := lookup_gocs_self s (eventSid e) e.timestamp (detectSource e)
          rw [hl2] at this
          injection this with this
          refine postBody_pending_nodup e ss2 ?_
          rw [this]
          exact pending_nodup_gocsVal h _ _ _
        · rcases pending_mem_gocs hmem with ⟨q, hq, hpq⟩ | hnil
          · rw [hpq]; exact h q hq
          · rw [hnil]; simp
    | notification =>
      simp only [processEvent, hph, processNotification] at hp
      cases hl2 : alookup (getOrCreateSession s (eventSid e) e.timestamp
          (detectSource e)).sessions (eventSid e) with
      | none =>
        rw [hl2] at hp
        rcases pending_mem_gocs hp with ⟨q, hq, hpq⟩ | hnil
        · rw [hpq]; exact h q hq
        · rw [hnil]; simp
      | some ss2 =>
        rw [hl2] at hp
        rcases mem_aset hp with hpe | hmem
        · rw [hpe]
          rw [notifBody_pending]
          have := lookup_gocs_self s (eventSid e) e.timestamp (detectSource e)
          rw [hl2] at this
          injection this with this
          rw [this]
          exact pending_nodup_gocsVal h _ _ _
        · rcases pending_mem_gocs hmem with ⟨q, hq, hpq⟩ | hnil
          · rw [hpq]; exact h q hq
          · rw [hnil]; simp

theorem c1_witness :
    PendingKeysNodup wS2 ∧ PendingKeysNodup (processEvent wEvBash 30 wS2) :=
  ⟨by decide, c1_pending_key_unique wEvBash 30 wS2 (by decide)⟩

/-! ### C2: subagent parentage -/

theorem gocma_find_main (ss : SessionState) (ctr : Nat) (used : List String) (now : Nat) :
    (getOrCreateMainAgent ss ctr used now).2.1.agents.find?
      (fun a => decide (a.type = AgentType.main)) =
      some (getOrCreateMainAgent ss ctr used now).1 := by
  unfold getOrCreateMainAgent
  split
  · next m heq => exact heq
  · next heq =>
    rw [List.find?_append, heq, Option.none_or]
    simp

theorem find?_main_setMainModel (m : Option String) (l : List Agent) :
    (setMainModel m l).find? (fun a => decide (a.type = AgentType.main)) =
      ((l.find? (fun a => decide (a.type = AgentType.main))).map
        (fun a => { a with model := m })) := by
  induction l with
  | nil => rfl
  | cons a rest ih =>
    by_cases h : a.type = AgentType.main
    · rw [setMainModel, if_pos h]
      rw [List.find?_cons_of_pos _ (by simp [h])]
      rw [List.find?_cons_of_pos _ (by simp [h])]
      rfl
    · rw [setMainModel, if_neg h]
      rw [List.find?_cons_of_neg _ (by simp [h]), List.find?_cons_of_neg _ (by simp [h])]
      exact ih

theorem lastActiveIdx_append_active (l : List Agent) (a : Agent)
    (h : a.status = AgentStatus.active) : lastActiveIdx (l ++ [a]) = some l.length := by
  induction l with
  | nil => simp [lastActiveIdx, h]
  | cons b rest ih => simp [lastActiveIdx, ih]

theorem findActiveAgentIdx_append_active (l : List Agent) (a : Agent)
    (h : a.status = AgentStatus.active) : findActiveAgentIdx (l ++ [a]) = some l.length := by
  unfold findActiveAgentIdx
  rw [lastActiveIdx_append_active l a h, Option.or_some]

theorem modifyIdx_append_last (f : Agent → Agent) (l : List Agent) (a : Agent) :
    modifyIdx f (l ++ [a]) l.length = l ++ [f a] := by
  induction l with
  | nil => rfl
  | cons b rest ih => simp [modifyIdx, ih]

theorem preStage1_task (e : Event) (now : Nat) (ss0 : SessionState) (aCtr : Nat)
    (used : List String) (htask : e.tool_name = some "Task") :
    ∃ m3 subA l,
      (preStage1 e now ss0 aCtr used).2.1.agents = l ++ [subA] ∧
      l.find? (fun a => decide (a.type = AgentType.main)) = some m3 ∧
      subA.type = AgentType.subagent ∧ subA.status = AgentStatus.active ∧
      subA.parentId = some m3.id := by
  simp only [preStage1]
  rw [if_pos htask]
  split_ifs with hm
  · refine ⟨{ (getOrCreateMainAgent (reactivateIfEnded ss0 e.timestamp) aCtr used now).1 with
        model := e.model }, _,
      setMainModel e.model
        (getOrCreateMainAgent (reactivateIfEnded ss0 e.timestamp) aCtr used now).2.1.agents,
      rfl, ?_, rfl, rfl, rfl⟩
    rw [find?_main_setMainModel, gocma_find_main]
    rfl
  · exact ⟨(getOrCreateMainAgent (reactivateIfEnded ss0 e.timestamp) aCtr used now).1, _, _,
      rfl, gocma_find_main _ _ _ _, rfl, rfl, rfl⟩

theorem preStage2_concat (e : Event) (tcCtr : Nat) (ss5 : SessionState) (l : List Agent)
    (subA : Agent) (hag : ss5.agents = l ++ [subA]) (hact : subA.status = AgentStatus.active) :
    ∃ sub2, (preStage2 e tcCtr ss5).1.agents = l ++ [sub2] ∧
      sub2.type = subA.type ∧ sub2.parentId = subA.parentId := by
  have hidx : findActiveAgentIdx ss5.agents = some l.length := by
    rw [hag]
    exact findActiveAgentIdx_append_active l subA hact
  unfold preStage2
  rw [hidx]
  refine ⟨{ subA with toolCalls := subA.toolCalls ++ [newToolCall e tcCtr], toolCallCount := subA.toolCallCount + 1 }, ?_, rfl, rfl⟩
  simp only [addTimeline_agents, trackFile_agents]
  rw [hag]
  exact modifyIdx_append_last _ l subA

theorem find?_main_concat_sub (l : List Agent) (a : Agent) {m : Agent}
    (_ha : a.type = AgentType.subagent)
    (h : l.find? (fun x => decide (x.type = AgentType.main)) = some m) :
    (l ++ [a]).find? (fun x => decide (x.type = AgentType.main)) = some m := by
  rw [List.find?_append, h, Option.or_some]

/-- C2 (amended): a `pre` event with tool name "Task" appends a new
subagent whose `parentId` is always the MAIN agent's id
(`spawnSubagent(ss, mainAgent.id, ...)` in the source), not the id of the
currently-active agent at spawn time. -/
theorem c2_spawn_parent_is_main (e : Event) (now : Nat) (s : WorkerState) (sid : String)
    (hp : e.phase = some Phase.pre) (htask : e.tool_name = some "Task")
    (hs : eventSid e = sid) :
    ∃ ss' sub m, alookup (processEvent e now s).sessions sid = some ss' ∧
      ss'.agents.getLast? = some sub ∧ sub.type = AgentType.subagent ∧
      ss'.agents.find? (fun a => decide (a.type = AgentType.main)) = some m ∧
      sub.parentId = some m.id := by
  subst hs
  have hproc : processEvent e now s = processPre e now s := by
    simp [processEvent, hp]
  rw [hproc]
  obtain ⟨m3, subA, l, hag, hfind, hty, hst, hpar⟩ :=
    preStage1_task e now (gocsVal s (eventSid e) e.timestamp (detectSource e))
      s.agentIdCounter s.usedNames htask
  obtain ⟨sub2, hag2, hty2, hpar2⟩ :=
    preStage2_concat e s.tcIdCounter
      (preStage1 e now (gocsVal s (eventSid e) e.timestamp (detectSource e))
        s.agentIdCounter s.usedNames).2.1 l subA hag hst
  refine ⟨(preBody e now (gocsVal s (eventSid e) e.timestamp (detectSource e))
      s.agentIdCounter s.tcIdCounter s.usedNames).1, sub2, m3,
    lookup_processPre_self e now s, ?_, ?_, ?_, ?_⟩
  · show (preStage2 e s.tcIdCounter
      (preStage1 e now (gocsVal s (eventSid e) e.timestamp (detectSource e))
        s.agentIdCounter s.usedNames).2.1).1.agents.getLast? = some sub2
    rw [hag2]
    exact List.getLast?_concat _
  · rw [hty2]
    exact hty
  · show (preStage2 e s.tcIdCounter
      (preStage1 e now (gocsVal s (eventSid e) e.timestamp (detectSource e))
        s.agentIdCounter s.usedNames).2.1).1.agents.find?
      (fun a => decide (a.type = AgentType.main)) = some m3
    rw [hag2]
    refine find?_main_concat_sub l sub2 ?_ hfind
    rw [hty2]
    exact hty
  · rw [hpar2, hpar]

def wEvTask : Event :=
  { phase := some Phase.pre, timestamp := some 2000, session_id := some "s1",
    tool_name := some "Task",
    tool_input := some { description := some "explore", subagent_type := some "general" } }

def wT2 : WorkerState := processEvent wEvTask 20 wS1

def wT3 : WorkerState := processEvent wEvTask 30 wT2

/-- C2 counterexample: process `session_start`, then two `pre` events for
tool "Task".  When the second spawn is processed, the currently-active
agent (most recently appended active agent) is the first subagent, id 1 —
yet the newly spawned subagent is appended with `parentId = some 0`, the
main agent's id, so the claimed parent (`some 1`) differs from the actual
parent (`some 0`). -/
theorem c2_counterexample :
    ((alookup wT2.sessions "s1").bind
      (fun ss => (findActiveAgent ss.agents).map (fun a => a.id))) = some 1 ∧
    ((alookup wT3.sessions "s1").bind
      (fun ss => ss.agents.getLast?.bind (fun a => a.parentId))) = some 0 ∧
    ¬ ((some 0 : Option Nat) = some 1) := by
  refine ⟨by decide, by decide, by decide⟩

theorem c2_witness :
    ∃ ss' sub m, alookup (processEvent wEvTask 30 wT2).sessions "s1" = some ss' ∧
      ss'.agents.getLast? = some sub ∧ sub.type = AgentType.subagent ∧
      ss'.agents.find? (fun a => decide (a.type = AgentType.main)) = some m ∧
      sub.parentId = some m.id :=
  c2_spawn_parent_is_main wEvTask 30 wT2 "s1" rfl rfl (by decide)

/-! ### C3: pre/post round trip and unmatched post -/

/-- C3: (a) For every worker state whose tool-call ids lie below the
counter, processing a `pre` event and then a `post` event with the same
tool name and session transitions exactly one ToolCall of that session —
the freshly created one, whose id is the old counter value and whose
status was `executing` with the pre event's timestamp as start — to
`completed` or `error`, stamping its completion timestamp with the post
event's timestamp, while every other tool-call id of the session resolves
to the same record as before the post.  (b) Processing a `post` event for
which the session's pending map holds no entry of that tool name leaves
the session's tool-call list exactly as it was: no ToolCall is created
and none is completed (the embedding is total, so nothing throws). -/
theorem c3_round_trip_and_unmatched :
    (∀ (e1 e2 : Event) (now1 now2 : Nat) (s : WorkerState) (sid : String),
      e1.phase = some Phase.pre → e2.phase = some Phase.post →
      eventSid e1 = sid → eventSid e2 = sid → e2.tool_name = e1.tool_name →
      TcIdsBelow s →
      ∃ tc1 tc2,
        callAt (processEvent e1 now1 s) sid s.tcIdCounter = some tc1 ∧
        tc1.status = TCStatus.executing ∧
        tc1.startedAt = e1.timestamp ∧
        callAt (processEvent e2 now2 (processEvent e1 now1 s)) sid s.tcIdCounter =
          some tc2 ∧
        (tc2.status = TCStatus.completed ∨ tc2.status = TCStatus.error) ∧
        tc2.completedAt = e2.timestamp ∧
        (∀ j, j ≠ s.tcIdCounter →
          callAt (processEvent e2 now2 (processEvent e1 now1 s)) sid j =
            callAt (processEvent e1 now1 s) sid j)) ∧
    (∀ (e : Event) (now : Nat) (s : WorkerState) (sid : String),
      e.phase = some Phase.post → eventSid e = sid →
      ((alookup s.sessions sid).all
        (fun ss => (alookup ss.pendingToolCalls e.tool_name).isNone)) = true →
      sessionCalls (processEvent e now s) sid = sessionCalls s sid) := by
  constructor
  · intro e1 e2 now1 now2 s sid hp1 hp2 hs1 hs2 htn hbel
    obtain ⟨h1, h2, h3⟩ := pre_post_round_trip e1 e2 now1 now2 s sid hp1 hp2 hs1 hs2 htn hbel
    refine ⟨newToolCall e1 s.tcIdCounter, completeCall e2 (newToolCall e1 s.tcIdCounter),
      h1, rfl, rfl, h2, ?_, rfl, h3⟩
    by_cases hb : detectError e2.tool_response
    · right; simp [completeCall, hb]
    · left; simp [completeCall, hb]
  · intro e now s sid hp hs hall
    apply post_unmatched e now s sid hp hs
    intro ss hss
    rw [hss] at hall
    simp only [Option.all] at hall
    exact Option.isNone_iff_eq_none.mp hall

def wEvPostBash : Event :=
  { phase := some Phase.post, timestamp := some 3000, session_id := some "s1",
    tool_name := some "Bash" }

def wEvPostGrep : Event :=
  { phase := some Phase.post, timestamp := some 1500, session_id := some "s1",
    tool_name := some "Grep" }

theorem c3_witness :
    (∃ tc1 tc2,
      callAt (processEvent wEvBash 20 wS1) "s1" wS1.tcIdCounter = some tc1 ∧
      tc1.status = TCStatus.executing ∧
      tc1.startedAt = wEvBash.timestamp ∧
      callAt (processEvent wEvPostBash 40 (processEvent wEvBash 20 wS1)) "s1"
        wS1.tcIdCounter = some tc2 ∧
      (tc2.status = TCStatus.completed ∨ tc2.status = TCStatus.error) ∧
      tc2.completedAt = wEvPostBash.timestamp ∧
      (∀ j, j ≠ wS1.tcIdCounter →
        callAt (processEvent wEvPostBash 40 (processEvent wEvBash 20 wS1)) "s1" j =
          callAt (processEvent wEvBash 20 wS1) "s1" j)) ∧
    sessionCalls (processEvent wEvPostGrep 15 wS1) "s1" = sessionCalls wS1 "s1" :=
  ⟨c3_round_trip_and_unmatched.1 wEvBash wEvPostBash 20 40 wS1 "s1" rfl rfl (by decide)
      (by decide) rfl (by decide),
   c3_round_trip_and_unmatched.2 wEvPostGrep 15 wS1 "s1" rfl (by decide) (by decide)⟩

/-! ### C5: statistics monotonicity and totals preservation -/

/-- C5: (a) every per-session statistics counter (tool calls, files,
tokens, line deltas, turns, errors) is non-decreasing across every
processed event for the lifetime of the session, i.e. until a
`session_start` of its own id resets it; (b) the delete-then-fold cycle
performed by a `session_start` reset leaves the global totals (sum over
live sessions plus carry-over) exactly unchanged, hence never decreases
them; (c) the pruner's delete-then-fold of ended and stale sessions
likewise leaves the global totals exactly unchanged (in the absence of
ghost sessions, which are deleted without folding). -/
theorem c5_stats_monotone_totals_preserved :
    (∀ (e : Event) (now : Nat) (s : WorkerState) (sid : String)
        (ss ss' : SessionState),
      alookup s.sessions sid = some ss →
      alookup (processEvent e now s).sessions sid = some ss' →
      ¬ (e.phase = some Phase.session_start ∧ eventSid e = sid) →
      statsLe ss.stats ss'.stats) ∧
    (∀ (e : Event) (now : Nat) (s : WorkerState),
      e.phase = some Phase.session_start → SessionKeysNodup s →
      getPublicStateTotals (processEvent e now s) = getPublicStateTotals s) ∧
    (∀ (now : Nat) (s : WorkerState),
      (∀ p ∈ s.sessions, ghostSession now p.2 = false) →
      getPublicStateTotals (pruneStaleAndEndedSessions now s) =
        getPublicStateTotals s) := by
  refine ⟨?_, ?_, ?_⟩
  · intro e now s sid ss ss' h1 h2 hreset
    exact stats_mono_processEvent e now s sid ss ss' h1 h2 hreset
  · intro e now s hp hnd
    have hpe : processEvent e now s = processSessionStart e now s := by
      simp [processEvent, hp]
    rw [hpe]
    exact totals_processSessionStart e now s hnd
  · intro now s hng
    exact totals_prune now s hng

def wSS1 : SessionState := (alookup wS1.sessions "s1").getD (createSessionState "s1" none "x")

def wSS2 : SessionState := (alookup wS2.sessions "s1").getD (createSessionState "s1" none "x")

theorem c5_witness :
    statsLe wSS1.stats wSS2.stats ∧
    getPublicStateTotals (processEvent wEvStart 10 wS1) = getPublicStateTotals wS1 ∧
    getPublicStateTotals (pruneStaleAndEndedSessions 20 wS2) = getPublicStateTotals wS2 :=
  ⟨c5_stats_monotone_totals_preserved.1 wEvBash 20 wS1 "s1" wSS1 wSS2
      (by decide) (by decide) (by decide),
   c5_stats_monotone_totals_preserved.2.1 wEvStart 10 wS1 rfl (by decide),
   c5_stats_monotone_totals_preserved.2.2 20 wS2 (by decide)⟩

/-! ### C7: ghost sessions pruned without folding -/

theorem endedExpired_of_ghost {now : Nat} {ss : SessionState}
    (h : ghostSession now ss = true) : endedExpired now ss = false := by
  unfold ghostSession at h
  unfold endedExpired
  simp only [Bool.and_eq_true, decide_eq_true_eq] at h
  obtain ⟨⟨h1, _⟩, _⟩ := h
  simp [h1]

theorem mem_keys_pruneList (now : Nat) (l : List (String × SessionState))
    (co : CarryStats) (used : List String) (k : String)
    (h : k ∈ (pruneList now l co used).1.map Prod.fst) : k ∈ l.map Prod.fst := by
  induction l generalizing co used with
  | nil => simp only [pruneList] at h; exact h
  | cons p rest ih =>
    obtain ⟨id, v⟩ := p
    simp only [pruneList] at h
    split_ifs at h with h1 h2 h3
    · exact List.mem_cons_of_mem _ (ih _ _ h)
    · exact List.mem_cons_of_mem _ (ih _ _ h)
    · simp only [List.map_cons, List.mem_cons] at h ⊢
      rcases h with h | h
      · exact Or.inl h
      · exact Or.inr (ih _ _ h)
    · simp only [List.map_cons, List.mem_cons] at h ⊢
      rcases h with h | h
      · exact Or.inl h
      · exact Or.inr (ih _ _ h)

theorem lookup_pruneList_of_ghost (now : Nat) (l : List (String × SessionState))
    (co : CarryStats) (used : List String) (sid : String) (ss : SessionState)
    (hnd : (l.map Prod.fst).Nodup) (hl : alookup l sid = some ss)
    (hg : ghostSession now ss = true) :
    alookup (pruneList now l co used).1 sid = none := by
  induction l generalizing co used with
  | nil => simp [alookup] at hl
  | cons p rest ih =>
    obtain ⟨id, v⟩ := p
    simp only [List.map_cons, List.nodup_cons] at hnd
    obtain ⟨hid_notin, hnd_rest⟩ := hnd
    by_cases hid : id = sid
    · subst hid
      rw [alookup, if_pos rfl] at hl
      injection hl with hl
      subst hl
      simp only [pruneList, endedExpired_of_ghost hg, Bool.false_eq_true, if_false, hg,
        if_true]
      apply alookup_eq_none_of_not_mem
      intro hmem
      exact hid_notin (mem_keys_pruneList now rest _ _ id hmem)
    · rw [alookup, if_neg hid] at hl
      simp only [pruneList]
      split_ifs with h1 h2 h3
      · exact ih _ _ hnd_rest hl
      · exact ih _ _ hnd_rest hl
      · rw [alookup, if_neg hid]
        exact ih _ _ hnd_rest hl
      · rw [alookup, if_neg hid]
        exact ih _ _ hnd_rest hl

theorem pruneList_carry_noexpired (now : Nat) (l : List (String × SessionState))
    (co : CarryStats) (used : List String)
    (h : ∀ p ∈ l, endedExpired now p.2 = false) :
    (pruneList now l co used).2.1 = co := by
  induction l generalizing co used with
  | nil => rfl
  | cons p rest ih =>
    obtain ⟨id, v⟩ := p
    have hv : endedExpired now v = false := h (id, v) (List.mem_cons_self _ _)
    have hrest : ∀ q ∈ rest, endedExpired now q.2 = false :=
      fun q hq => h q (List.mem_cons_of_mem _ hq)
    simp only [pruneList, hv, Bool.false_eq_true, if_false]
    split_ifs with h2 h3
    · exact ih _ _ hrest
    · exact ih _ _ hrest
    · exact ih _ _ hrest

/-- C7: a session that is active, has a zero tool-call counter and has
been idle past the 15-second idle-ghost threshold is removed by the next
pruner sweep, and — ghost sessions being deleted without folding — when
no session of the sweep is an expired ended one, every carry-over counter
is left exactly unchanged. -/
theorem c7_ghost_pruned_without_fold (now : Nat) (s : WorkerState) (sid : String)
    (ss : SessionState) (hnd : SessionKeysNodup s)
    (hl : alookup s.sessions sid = some ss) (hg : ghostSession now ss = true) :
    alookup (pruneStaleAndEndedSessions now s).sessions sid = none ∧
    ((∀ p ∈ s.sessions, endedExpired now p.2 = false) →
      (pruneStaleAndEndedSessions now s).carryOver = s.carryOver) := by
  constructor
  · exact lookup_pruneList_of_ghost now s.sessions s.carryOver s.usedNames sid ss hnd hl hg
  · intro hne
    exact pruneList_carry_noexpired now s.sessions s.carryOver s.usedNames hne

theorem c7_witness :
    (SessionKeysNodup wS1 ∧ alookup wS1.sessions "s1" = some wSS1 ∧
      ghostSession 20000 wSS1 = true ∧
      (∀ p ∈ wS1.sessions, endedExpired 20000 p.2 = false)) ∧
    alookup (pruneStaleAndEndedSessions 20000 wS1).sessions "s1" = none ∧
    (pruneStaleAndEndedSessions 20000 wS1).carryOver = wS1.carryOver := by
  refine ⟨⟨by decide, by decide, by decide, by decide⟩, ?_, ?_⟩
  · exact (c7_ghost_pruned_without_fold 20000 wS1 "s1" wSS1 (by decide) (by decide)
      (by decide)).1
  · exact (c7_ghost_pruned_without_fold 20000 wS1 "s1" wSS1 (by decide) (by decide)
      (by decide)).2 (by decide)

/-! ### C4: session deletion, stats folding and name release -/

@[simp] theorem startReset_usedNames (e : Event) (s : WorkerState) :
    (startReset e s).usedNames = s.usedNames := by
  unfold startReset
  split <;> rfl

theorem used_sub_gocma (ss : SessionState) (ctr : Nat) (used : List String) (now : Nat) :
    ∀ n ∈ used, n ∈ (getOrCreateMainAgent ss ctr used now).2.2.2 := by
  intro n hn
  unfold getOrCreateMainAgent
  cases h : ss.agents.find? (fun a => decide (a.type = AgentType.main)) with
  | some m => exact hn
  | none =>
    simp only [pickAgentName]
    split_ifs <;> first | exact hn | exact List.mem_append_left _ hn

theorem pruneList_used_noexpired_noghost (now : Nat) (l : List (String × SessionState))
    (co : CarryStats) (used : List String)
    (h : ∀ p ∈ l, endedExpired now p.2 = false ∧ ghostSession now p.2 = false) :
    (pruneList now l co used).2.2 = used := by
  induction l generalizing co used with
  | nil => rfl
  | cons p rest ih =>
    obtain ⟨id, v⟩ := p
    obtain ⟨hv1, hv2⟩ := h (id, v) (List.mem_cons_self _ _)
    have hrest : ∀ q ∈ rest, endedExpired now q.2 = false ∧ ghostSession now q.2 = false :=
      fun q hq => h q (List.mem_cons_of_mem _ hq)
    simp only [pruneList, hv1, hv2, Bool.false_eq_true, if_false]
    split_ifs with h3
    · exact ih _ _ hrest
    · exact ih _ _ hrest

theorem pruneList_sole_expired (now : Nat) (l : List (String × SessionState))
    (co : CarryStats) (used : List String) (sid : String) (ss : SessionState)
    (hnd : (l.map Prod.fst).Nodup) (hl : alookup l sid = some ss)
    (he : endedExpired now ss = true)
    (hothers : ∀ p ∈ l, p.1 ≠ sid →
      endedExpired now p.2 = false ∧ ghostSession now p.2 = false) :
    alookup (pruneList now l co used).1 sid = none ∧
    (pruneList now l co used).2.1 = addCarry co ss.stats ∧
    (pruneList now l co used).2.2 = releaseMainNames used ss.agents := by
  induction l generalizing co used with
  | nil => simp [alookup] at hl
  | cons p rest ih =>
    obtain ⟨id, v⟩ := p
    simp only [List.map_cons, List.nodup_cons] at hnd
    obtain ⟨hid_notin, hnd_rest⟩ := hnd
    by_cases hid : id = sid
    · subst hid
      rw [alookup, if_pos rfl] at hl
      injection hl with hl
      subst hl
      have hrest : ∀ q ∈ rest, endedExpired now q.2 = false ∧ ghostSession now q.2 = false := by
        intro q hq
        refine hothers q (List.mem_cons_of_mem _ hq) ?_
        intro hqid
        exact hid_notin (hqid ▸ List.mem_map_of_mem Prod.fst hq)
      simp only [pruneList, he, if_true]
      refine ⟨?_, ?_, ?_⟩
      · apply alookup_eq_none_of_not_mem
        intro hmem
        exact hid_notin (mem_keys_pruneList now rest _ _ id hmem)
      · exact pruneList_carry_noexpired now rest _ _ (fun q hq => (hrest q hq).1)
      · exact pruneList_used_noexpired_noghost now rest _ _ hrest
    · rw [alookup, if_neg hid] at hl
      obtain ⟨hv1, hv2⟩ := hothers (id, v) (List.mem_cons_self _ _) hid
      have hothers_rest : ∀ q ∈ rest, q.1 ≠ sid →
          endedExpired now q.2 = false ∧ ghostSession now q.2 = false :=
        fun q hq hq2 => hothers q (List.mem_cons_of_mem _ hq) hq2
      simp only [pruneList, hv1, hv2, Bool.false_eq_true, if_false]
      split_ifs with h3
      · obtain ⟨i1, i2, i3⟩ := ih _ _ hnd_rest hl hothers_rest
        exact ⟨by rw [alookup, if_neg hid]; exact i1, i2, i3⟩
      · obtain ⟨i1, i2, i3⟩ := ih _ _ hnd_rest hl hothers_rest
        exact ⟨by rw [alookup, if_neg hid]; exact i1, i2, i3⟩

/-- C4 (amended): both deletion paths fold the departing session's
statistics counters exactly once into carry-over and remove the session
from the map, but only the PRUNER releases the main agent's display name
back to the pool: (a) the pruner's retention-window deletion of an
expired ended session (the only session being deleted in the sweep)
removes it, adds its stats to carry-over once, and maps the used-name set
through `releaseMainNames`; (b) `releaseMainNames` really frees a main
agent's name when the used set has no duplicates; (c) the `session_start`
reset folds the old session's stats into carry-over once and replaces the
session with a fresh zero-counter one, but every previously used name —
including the deleted main agent's — remains marked used. -/
theorem c4_delete_folds_and_name_release :
    (∀ (now : Nat) (s : WorkerState) (sid : String) (ss : SessionState),
      SessionKeysNodup s →
      alookup s.sessions sid = some ss →
      endedExpired now ss = true →
      (∀ p ∈ s.sessions, p.1 ≠ sid →
        endedExpired now p.2 = false ∧ ghostSession now p.2 = false) →
      alookup (pruneStaleAndEndedSessions now s).sessions sid = none ∧
      (pruneStaleAndEndedSessions now s).carryOver = addCarry s.carryOver ss.stats ∧
      (pruneStaleAndEndedSessions now s).usedNames =
        releaseMainNames s.usedNames ss.agents) ∧
    (∀ (used : List String) (a : Agent),
      used.Nodup → a.type = AgentType.main →
      a.name ∉ releaseMainNames used [a]) ∧
    (∀ (e : Event) (now : Nat) (s : WorkerState) (old : SessionState),
      e.phase = some Phase.session_start → SessionKeysNodup s →
      alookup s.sessions (eventSid e) = some old →
      (processEvent e now s).carryOver = addCarry s.carryOver old.stats ∧
      (∃ fresh, alookup (processEvent e now s).sessions (eventSid e) = some fresh ∧
        fresh.stats.toolCalls = 0 ∧ fresh.stats.filesAccessed = 0 ∧
        fresh.stats.estimatedTokens = 0 ∧ fresh.stats.linesAdded = 0 ∧
        fresh.stats.linesRemoved = 0 ∧ fresh.stats.turns = 0 ∧
        fresh.stats.errors = 0) ∧
      (∀ n ∈ s.usedNames, n ∈ (processEvent e now s).usedNames)) := by
  refine ⟨?_, ?_, ?_⟩
  · intro now s sid ss hnd hl he hothers
    exact pruneList_sole_expired now s.sessions s.carryOver s.usedNames sid ss hnd hl he hothers
  · intro used a hnd hm
    simp only [releaseMainNames, List.foldl_cons, List.foldl_nil, if_pos hm]
    exact hnd.not_mem_erase
  · intro e now s old hp hnd hl
    have hpe : processEvent e now s = processSessionStart e now s := by
      simp [processEvent, hp]
    have hsr : (startReset e s).carryOver = addCarry s.carryOver old.stats := by
      unfold startReset
      rw [hl]
    refine ⟨?_, ?_, ?_⟩
    · rw [hpe]
      simp only [processSessionStart]
      split
      · simp [hsr]
      · simp [hsr]
    · rw [hpe]
      refine ⟨_, lookup_processSessionStart_self e now s hnd, ?_, ?_, ?_, ?_, ?_, ?_, ?_⟩ <;>
        simp [createSessionState]
    · intro n hn
      rw [hpe]
      simp only [processSessionStart]
      split
      · simpa using hn
      · have hmem : n ∈ (getOrCreateSession (startReset e s) (eventSid e) e.timestamp
            (detectSource e)).usedNames := by
          simpa using hn
        exact used_sub_gocma _ _ _ now n hmem

def wR2 : WorkerState := processEvent wEvStart 40 wS1

/-- C4 counterexample: session "s1" has main agent "Nova"; a second
`session_start` for the same id performs the full reset, yet "Nova" is
still marked used afterwards (the reset never releases it), and the
recreated session's main agent is forced onto the next pool name
"Cipher" — refuting the claim that the reset releases the main agent's
display name for reuse. -/
theorem c4_counterexample :
    ((alookup wS1.sessions "s1").map (fun ss => ss.agents.map (fun a => a.name))) =
      some ["Nova"] ∧
    "Nova" ∈ wR2.usedNames ∧
    ((alookup wR2.sessions "s1").map (fun ss => ss.agents.map (fun a => a.name))) =
      some ["Cipher"] := by
  refine ⟨by decide, by decide, by decide⟩

def wEvEnd : Event :=
  { phase := some Phase.session_end, timestamp := some 5000, session_id := some "s1" }

def wSE : WorkerState := processEvent wEvEnd 50 wS1

def wSSE : SessionState := (alookup wSE.sessions "s1").getD (createSessionState "s1" none "x")

def wMainA : Agent :=
  { id := 0, name := "Nova", color := "", shape := "", type := AgentType.main,
    subagentType := none, model := none, parentId := none, sessionId := "s1",
    source := "claudecode", status := AgentStatus.active, spawnedAt := 10,
    completedAt := none, toolCalls := [], toolCallCount := 0 }

theorem c4_witness :
    (SessionKeysNodup wSE ∧ alookup wSE.sessions "s1" = some wSSE ∧
      endedExpired 200000 wSSE = true) ∧
    (alookup (pruneStaleAndEndedSessions 200000 wSE).sessions "s1" = none ∧
      (pruneStaleAndEndedSessions 200000 wSE).carryOver =
        addCarry wSE.carryOver wSSE.stats ∧
      (pruneStaleAndEndedSessions 200000 wSE).usedNames =
        releaseMainNames wSE.usedNames wSSE.agents) ∧
    wMainA.name ∉ releaseMainNames ["Nova"] [wMainA] ∧
    ((processEvent wEvStart 40 wS1).carryOver = addCarry wS1.carryOver wSS1.stats ∧
      "Nova" ∈ (processEvent wEvStart 40 wS1).usedNames) := by
  refine ⟨⟨by decide, by decide, by decide⟩, ?_, ?_, ?_, ?_⟩
  · exact c4_delete_folds_and_name_release.1 200000 wSE "s1" wSSE (by decide) (by decide)
      (by decide) (by decide)
  · exact c4_delete_folds_and_name_release.2.1 ["Nova"] wMainA (by decide) rfl
  · exact (c4_delete_folds_and_name_release.2.2 wEvStart 40 wS1 wSS1 rfl (by decide)
      (by decide)).1
  · exact (c4_delete_folds_and_name_release.2.2 wEvStart 40 wS1 wSS1 rfl (by decide)
      (by decide)).2.2 "Nova" (by decide)

/-! ### C10: completed subagents never resurrect -/

/-- Each session's agents carry pairwise distinct ids. -/
abbrev AgentIdsNodup (s : WorkerState) : Prop :=
  ∀ p ∈ s.sessions, (p.2.agents.map (fun a => a.id)).Nodup

/-- Every ACTIVE subagent of the second agent list either already occurs
in the first list as an active subagent with the same id, or is fresh
(its id is at least the given counter). -/
def subOrigin (ctr : Nat) (l l' : List Agent) : Prop :=
  ∀ a' ∈ l', a'.type = AgentType.subagent → a'.status = AgentStatus.active →
    (∃ a ∈ l, a.id = a'.id ∧ a.type = AgentType.subagent ∧
      a.status = AgentStatus.active) ∨ ctr ≤ a'.id

theorem subOrigin_refl (ctr : Nat) (l : List Agent) : subOrigin ctr l l :=
  fun a' h' ht hs => Or.inl ⟨a', h', rfl, ht, hs⟩

theorem subOrigin_of_eq {ctr : Nat} {l l' : List Agent} (h : l' = l) :
    subOrigin ctr l l' := h ▸ subOrigin_refl ctr l

theorem subOrigin_trans {ctr : Nat} {l m n : List Agent}
    (h1 : subOrigin ctr l m) (h2 : subOrigin ctr m n) : subOrigin ctr l n := by
  intro a' h' ht hs
  rcases h2 a' h' ht hs with ⟨b, hb, hbid, hbt, hbs⟩ | hge
  · rcases h1 b hb hbt hbs with ⟨c, hc, hcid, hct, hcs⟩ | hge2
    · exact Or.inl ⟨c, hc, by rw [hcid, hbid], hct, hcs⟩
    · exact Or.inr (by omega)
  · exact Or.inr hge

theorem subOrigin_append_main_or_fresh (ctr : Nat) (l : List Agent) (a0 : Agent)
    (h : a0.type = AgentType.main ∨ ctr ≤ a0.id) :
    subOrigin ctr l (l ++ [a0]) := by
  intro a' h' ht hs
  rcases List.mem_append.mp h' with hm | hm
  · exact Or.inl ⟨a', hm, rfl, ht, hs⟩
  · have heq : a' = a0 := List.mem_singleton.mp hm
    rcases h with hmain | hfresh
    · rw [heq, hmain] at ht
      exact absurd ht (by decide)
    · exact Or.inr (by rw [heq]; exact hfresh)

theorem mem_reviveMain {l : List Agent} {a' : Agent} (h : a' ∈ reviveMain l) :
    a' ∈ l ∨ ∃ a ∈ l, a.type = AgentType.main ∧
      a' = { a with status := AgentStatus.active, completedAt := none } := by
  induction l with
  | nil => simp [reviveMain] at h
  | cons a rest ih =>
    simp only [reviveMain] at h
    split_ifs at h with h1 h2
    · rcases List.mem_cons.mp h with heq | hm
      · exact Or.inr ⟨a, List.mem_cons_self _ _, h1, heq⟩
      · exact Or.inl (List.mem_cons_of_mem _ hm)
    · rcases List.mem_cons.mp h with heq | hm
      · exact Or.inl (by rw [heq]; exact List.mem_cons_self _ _)
      · exact Or.inl (List.mem_cons_of_mem _ hm)
    · rcases List.mem_cons.mp h with heq | hm
      · exact Or.inl (by rw [heq]; exact List.mem_cons_self _ _)
      · rcases ih hm with hm2 | ⟨b, hb, hbt, hbe⟩
        · exact Or.inl (List.mem_cons_of_mem _ hm2)
        · exact Or.inr ⟨b, List.mem_cons_of_mem _ hb, hbt, hbe⟩

theorem mem_setMainModel {m : Option String} {l : List Agent} {a' : Agent}
    (h : a' ∈ setMainModel m l) :
    a' ∈ l ∨ ∃ a ∈ l, a.type = AgentType.main ∧ a' = { a with model := m } := by
  induction l with
  | nil => simp [setMainModel] at h
  | cons a rest ih =>
    simp only [setMainModel] at h
    split_ifs at h with h1
    · rcases List.mem_cons.mp h with heq | hm
      · exact Or.inr ⟨a, List.mem_cons_self _ _, h1, heq⟩
      · exact Or.inl (List.mem_cons_of_mem _ hm)
    · rcases List.mem_cons.mp h with heq | hm
      · exact Or.inl (by rw [heq]; exact List.mem_cons_self _ _)
      · rcases ih hm with hm2 | ⟨b, hb, hbt, hbe⟩
        · exact Or.inl (List.mem_cons_of_mem _ hm2)
        · exact Or.inr ⟨b, List.mem_cons_of_mem _ hb, hbt, hbe⟩

theorem mem_completeLastActiveSubAux {ts : Option Nat} {l : List Agent} {a' : Agent}
    (h : a' ∈ completeLastActiveSubAux ts l) :
    a' ∈ l ∨ ∃ a ∈ l, a' = { a with status := AgentStatus.completed, completedAt := ts } := by
  induction l with
  | nil => simp [completeLastActiveSubAux] at h
  | cons a rest ih =>
    simp only [completeLastActiveSubAux] at h
    split_ifs at h with h1
    · rcases List.mem_cons.mp h with heq | hm
      · exact Or.inr ⟨a, List.mem_cons_self _ _, heq⟩
      · exact Or.inl (List.mem_cons_of_mem _ hm)
    · rcases List.mem_cons.mp h with heq | hm
      · exact Or.inl (by rw [heq]; exact List.mem_cons_self _ _)
      · rcases ih hm with hm2 | ⟨b, hb, hbe⟩
        · exact Or.inl (List.mem_cons_of_mem _ hm2)
        · exact Or.inr ⟨b, List.mem_cons_of_mem _ hb, hbe⟩

theorem mem_modifyIdx {f : Agent → Agent} {l : List Agent} {i : Nat} {a' : Agent}
    (h : a' ∈ modifyIdx f l i) : a' ∈ l ∨ ∃ a ∈ l, a' = f a := by
  induction l generalizing i with
  | nil => simp [modifyIdx] at h
  | cons a rest ih =>
    cases i with
    | zero =>
      simp only [modifyIdx] at h
      rcases List.mem_cons.mp h with heq | hm
      · exact Or.inr ⟨a, List.mem_cons_self _ _, heq⟩
      · exact Or.inl (List.mem_cons_of_mem _ hm)
    | succ n =>
      simp only [modifyIdx] at h
      rcases List.mem_cons.mp h with heq | hm
      · exact Or.inl (by rw [heq]; exact List.mem_cons_self _ _)
      · rcases ih hm with hm2 | ⟨b, hb, hbe⟩
        · exact Or.inl (List.mem_cons_of_mem _ hm2)
        · exact Or.inr ⟨b, List.mem_cons_of_mem _ hb, hbe⟩

theorem mem_updateCallById {i : Nat} {f : ToolCall → ToolCall} {l : List Agent} {a' : Agent}
    (h : a' ∈ updateCallById i f l) :
    a' ∈ l ∨ ∃ a ∈ l, a' = { a with toolCalls := updateFirstCall i f a.toolCalls } := by
  induction l with
  | nil => simp [updateCallById] at h
  | cons a rest ih =>
    simp only [updateCallById] at h
    split_ifs at h with h1
    · rcases List.mem_cons.mp h with heq | hm
      · exact Or.inr ⟨a, List.mem_cons_self _ _, heq⟩
      · exact Or.inl (List.mem_cons_of_mem _ hm)
    · rcases List.mem_cons.mp h with heq | hm
      · exact Or.inl (by rw [heq]; exact List.mem_cons_self _ _)
      · rcases ih hm with hm2 | ⟨b, hb, hbe⟩
        · exact Or.inl (List.mem_cons_of_mem _ hm2)
        · exact Or.inr ⟨b, List.mem_cons_of_mem _ hb, hbe⟩

theorem subOrigin_reviveMain (ctr : Nat) (l : List Agent) : subOrigin ctr l (reviveMain l) := by
  intro a' h' ht hs
  rcases mem_reviveMain h' with hm | ⟨a, ha, hat, hae⟩
  · exact Or.inl ⟨a', hm, rfl, ht, hs⟩
  · rw [hae] at ht
    have ht2 : a.type = AgentType.subagent := ht
    rw [hat] at ht2
    exact absurd ht2 (by decide)

theorem subOrigin_setMainModel (ctr : Nat) (m : Option String) (l : List Agent) :
    subOrigin ctr l (setMainModel m l) := by
  intro a' h' ht hs
  rcases mem_setMainModel h' with hm | ⟨a, ha, hat, hae⟩
  · exact Or.inl ⟨a', hm, rfl, ht, hs⟩
  · rw [hae] at ht
    have ht2 : a.type = AgentType.subagent := ht
    rw [hat] at ht2
    exact absurd ht2 (by decide)

theorem subOrigin_completeLastActiveSub (ctr : Nat) (ts : Option Nat) (l : List Agent) :
    subOrigin ctr l (completeLastActiveSub ts l) := by
  intro a' h' ht hs
  rw [completeLastActiveSub, List.mem_reverse] at h'
  rcases mem_completeLastActiveSubAux h' with hm | ⟨a, ha, hae⟩
  · rw [List.mem_reverse] at hm
    exact Or.inl ⟨a', hm, rfl, ht, hs⟩
  · rw [hae] at hs
    have hs2 : AgentStatus.completed = AgentStatus.active := hs
    exact absurd hs2 (by decide)

theorem subOrigin_modifyIdx (ctr : Nat) (l : List Agent) (i : Nat) (f : Agent → Agent)
    (hf : ∀ a, (f a).id = a.id ∧ (f a).type = a.type ∧ (f a).status = a.status) :
    subOrigin ctr l (modifyIdx f l i) := by
  intro a' h' ht hs
  rcases mem_modifyIdx h' with hm | ⟨a, ha, hae⟩
  · exact Or.inl ⟨a', hm, rfl, ht, hs⟩
  · obtain ⟨h1, h2, h3⟩ := hf a
    rw [hae] at ht hs
    rw [h2] at ht
    rw [h3] at hs
    exact Or.inl ⟨a, ha, by rw [hae, h1], ht, hs⟩

theorem subOrigin_updateCallById (ctr i : Nat) (f : ToolCall → ToolCall) (l : List Agent) :
    subOrigin ctr l (updateCallById i f l) := by
  intro a' h' ht hs
  rcases mem_updateCallById h' with hm | ⟨a, ha, hae⟩
  · exact Or.inl ⟨a', hm, rfl, ht, hs⟩
  · subst hae
    exact Or.inl ⟨a, ha, rfl, ht, hs⟩

theorem subOrigin_map_of (ctr : Nat) (l : List Agent) (f : Agent → Agent)
    (hf : ∀ a, f a = a ∨ (f a).status = AgentStatus.completed) :
    subOrigin ctr l (l.map f) := by
  intro a' h' ht hs
  obtain ⟨b, hb, hbe⟩ := List.mem_map.mp h'
  rcases hf b with h1 | h1
  · rw [h1] at hbe
    subst hbe
    exact Or.inl ⟨_, hb, rfl, ht, hs⟩
  · rw [hbe] at h1
    rw [h1] at hs
    exact absurd hs (by decide)

theorem mem_gocma_agents {ss : SessionState} {ctr : Nat} {used : List String} {now : Nat}
    {a' : Agent} (h : a' ∈ (getOrCreateMainAgent ss ctr used now).2.1.agents) :
    a' ∈ ss.agents ∨ a'.type = AgentType.main := by
  unfold getOrCreateMainAgent at h
  split at h
  · exact Or.inl h
  · rcases List.mem_append.mp h with hm | hm
    · exact Or.inl hm
    · exact Or.inr (by rw [List.mem_singleton.mp hm])

theorem subOrigin_gocma (ctr0 : Nat) (ss : SessionState) (ctr : Nat) (used : List String)
    (now : Nat) :
    subOrigin ctr0 ss.agents (getOrCreateMainAgent ss ctr used now).2.1.agents := by
  intro a' h' ht hs
  rcases mem_gocma_agents h' with hm | hmain
  · exact Or.inl ⟨a', hm, rfl, ht, hs⟩
  · rw [hmain] at ht
    exact absurd ht (by decide)

theorem subOrigin_reactivate (ctr : Nat) (ss : SessionState) (t : Option Nat) :
    subOrigin ctr ss.agents (reactivateIfEnded ss t).agents := by
  unfold reactivateIfEnded
  split_ifs with h1
  · exact subOrigin_reviveMain ctr ss.agents
  · exact subOrigin_refl ctr ss.agents

theorem le_gocma_ctr (ss : SessionState) (ctr : Nat) (used : List String) (now : Nat) :
    ctr ≤ (getOrCreateMainAgent ss ctr used now).2.2.1 := by
  unfold getOrCreateMainAgent
  split
  · exact Nat.le_refl _
  · exact Nat.le_succ _

theorem spawn_agents (ss : SessionState) (pid : Nat) (ti : Option ToolInput) (ctr now : Nat) :
    (spawnSubagent ss pid ti ctr now).2.1.agents =
      ss.agents ++ [(spawnSubagent ss pid ti ctr now).1] := rfl

theorem spawn_fst_id (ss : SessionState) (pid : Nat) (ti : Option ToolInput) (ctr now : Nat) :
    (spawnSubagent ss pid ti ctr now).1.id = ctr := rfl

theorem subOrigin_preStage1 (e : Event) (now : Nat) (ss0 : SessionState) (aCtr : Nat)
    (used : List String) :
    subOrigin aCtr ss0.agents (preStage1 e now ss0 aCtr used).2.1.agents := by
  have t1 := subOrigin_reactivate aCtr ss0 e.timestamp
  have t2 := subOrigin_gocma aCtr (reactivateIfEnded ss0 e.timestamp) aCtr used now
  have t12 := subOrigin_trans t1 t2
  simp only [preStage1]
  split_ifs with h1 h2 h3
  · simp only [addTimeline_agents, spawn_agents]
    refine subOrigin_trans (subOrigin_trans t12 (subOrigin_setMainModel aCtr e.model _))
      (subOrigin_append_main_or_fresh aCtr _ _ (Or.inr ?_))
    rw [spawn_fst_id]
    exact le_gocma_ctr _ _ _ _
  · simp only [addTimeline_agents, spawn_agents]
    refine subOrigin_trans t12
      (subOrigin_append_main_or_fresh aCtr _ _ (Or.inr ?_))
    rw [spawn_fst_id]
    exact le_gocma_ctr _ _ _ _
  · exact subOrigin_trans t12 (subOrigin_setMainModel aCtr e.model _)
  · exact t12

theorem subOrigin_preStage2 (ctr : Nat) (e : Event) (tcCtr : Nat) (ss5 : SessionState) :
    subOrigin ctr ss5.agents (preStage2 e tcCtr ss5).1.agents := by
  simp only [preStage2]
  split
  · exact subOrigin_refl ctr ss5.agents
  · simp only [addTimeline_agents, trackFile_agents]
    exact subOrigin_modifyIdx ctr ss5.agents _ _ (fun a => ⟨rfl, rfl, rfl⟩)

theorem subOrigin_preBody (e : Event) (now : Nat) (ss0 : SessionState) (aCtr tcCtr : Nat)
    (used : List String) :
    subOrigin aCtr ss0.agents (preBody e now ss0 aCtr tcCtr used).1.agents := by
  simp only [preBody]
  exact subOrigin_trans (subOrigin_preStage1 e now ss0 aCtr used)
    (subOrigin_preStage2 aCtr e tcCtr _)

theorem subOrigin_postPendingStep (ctr : Nat) (e : Event) (ss1 : SessionState) :
    subOrigin ctr ss1.agents (postPendingStep e ss1).agents := by
  simp only [postPendingStep]
  split
  · split
    · split_ifs with h1
      · exact subOrigin_updateCallById ctr _ (completeCall e) ss1.agents
      · exact subOrigin_updateCallById ctr _ (completeCall e) ss1.agents
    · exact subOrigin_refl ctr ss1.agents
  · exact subOrigin_refl ctr ss1.agents

theorem subOrigin_postBody (ctr : Nat) (e : Event) (ss0 : SessionState) :
    subOrigin ctr ss0.agents (postBody e ss0).agents := by
  simp only [postBody]
  split
  · exact subOrigin_reactivate ctr ss0 e.timestamp
  · simp only [addTimeline_agents]
    split_ifs with h1
    · exact subOrigin_trans
        (subOrigin_trans (subOrigin_reactivate ctr ss0 e.timestamp)
          (subOrigin_postPendingStep ctr e _))
        (subOrigin_completeLastActiveSub ctr e.timestamp _)
    · exact subOrigin_trans (subOrigin_reactivate ctr ss0 e.timestamp)
        (subOrigin_postPendingStep ctr e _)

theorem subOrigin_notifBody (ctr : Nat) (e : Event) (ss0 : SessionState) :
    subOrigin ctr ss0.agents (notifBody e ss0).agents := by
  simp only [notifBody]
  split
  · exact subOrigin_reactivate ctr ss0 e.timestamp
  · simp only [addTimeline_agents]
    exact subOrigin_trans (subOrigin_reactivate ctr ss0 e.timestamp)
      (subOrigin_modifyIdx ctr _ _ _ (fun a => ⟨rfl, rfl, rfl⟩))

theorem subOrigin_endBody (ctr : Nat) (e : Event) (ss : SessionState) :
    subOrigin ctr ss.agents (endBody e ss).agents := by
  simp only [endBody]
  refine subOrigin_map_of ctr ss.agents _ (fun a => ?_)
  by_cases h : a.status = AgentStatus.active
  · right
    rw [if_pos h]
  · left
    rw [if_neg h]

theorem subOrigin_processEvent (e : Event) (now : Nat) (s : WorkerState) (sid : String)
    (ss ss' : SessionState) (hknd : SessionKeysNodup s)
    (h1 : alookup s.sessions sid = some ss)
    (h2 : alookup (processEvent e now s).sessions sid = some ss') :
    subOrigin s.agentIdCounter ss.agents ss'.agents := by
  cases hph : e.phase with
  | none =>
    simp only [processEvent, hph] at h2
    rw [h1] at h2
    injection h2 with h2
    exact subOrigin_of_eq (by rw [h2])
  | some ph =>
    cases ph with
    | pre =>
      have hpe : processEvent e now s = processPre e now s := by
        simp [processEvent, hph]
      rw [hpe] at h2
      by_cases hsid : sid = eventSid e
      · subst hsid
        rw [lookup_processPre_self] at h2
        injection h2 with h2
        rw [← h2]
        have hga : (gocsVal s (eventSid e) e.timestamp (detectSource e)).agents =
            ss.agents := by
          rw [gocsVal_of_lookup _ _ h1, backfill_agents]
        have hb := subOrigin_preBody e now
          (gocsVal s (eventSid e) e.timestamp (detectSource e))
          s.agentIdCounter s.tcIdCounter s.usedNames
        rw [hga] at hb
        exact hb
      · rw [lookup_processPre_ne e now s hsid, h1] at h2
        injection h2 with h2
        exact subOrigin_of_eq (by rw [h2])
    | post =>
      have hpe : processEvent e now s = processPost e s := by
        simp [processEvent, hph]
      rw [hpe] at h2
      by_cases hsid : sid = eventSid e
      · subst hsid
        rw [lookup_processPost_self] at h2
        injection h2 with h2
        rw [← h2]
        have hga : (gocsVal s (eventSid e) e.timestamp (detectSource e)).agents =
            ss.agents := by
          rw [gocsVal_of_lookup _ _ h1, backfill_agents]
        have hb := subOrigin_postBody s.agentIdCounter e
          (gocsVal s (eventSid e) e.timestamp (detectSource e))
        rw [hga] at hb
        exact hb
      · rw [lookup_processPost_ne e s hsid, h1] at h2
        injection h2 with h2
        exact subOrigin_of_eq (by rw [h2])
    | notification =>
      have hpe : processEvent e now s = processNotification e s := by
        simp [processEvent, hph]
      rw [hpe] at h2
      by_cases hsid : sid = eventSid e
      · subst hsid
        rw [lookup_processNotification_self] at h2
        injection h2 with h2
        rw [← h2]
        have hga : (gocsVal s (eventSid e) e.timestamp (detectSource e)).agents =
            ss.agents := by
          rw [gocsVal_of_lookup _ _ h1, backfill_agents]
        have hb := subOrigin_notifBody s.agentIdCounter e
          (gocsVal s (eventSid e) e.timestamp (detectSource e))
        rw [hga] at hb
        exact hb
      · rw [lookup_processNotification_ne e s hsid, h1] at h2
        injection h2 with h2
        exact subOrigin_of_eq (by rw [h2])
    | session_end =>
      have hpe : processEvent e now s = processSessionEnd e s := by
        simp [processEvent, hph]
      rw [hpe] at h2
      by_cases hsid : sid = eventSid e
      · subst hsid
        rw [lookup_processSessionEnd_self, h1] at h2
        have h3 : some (endBody e ss) = some ss' := h2
        injection h3 with h3
        rw [← h3]
        exact subOrigin_endBody s.agentIdCounter e ss
      · rw [lookup_processSessionEnd_ne e s hsid, h1] at h2
        injection h2 with h2
        exact subOrigin_of_eq (by rw [h2])
    | session_start =>
      have hpe : processEvent e now s = processSessionStart e now s := by
        simp [processEvent, hph]
      rw [hpe] at h2
      by_cases hsid : sid = eventSid e
      · subst hsid
        rw [lookup_processSessionStart_self e now s hknd] at h2
        injection h2 with h2
        rw [← h2]
        intro a' h' ht hs
        rcases mem_gocma_agents h' with hm | hmain
        · rw [backfill_agents] at hm
          simp [createSessionState] at hm
        · rw [hmain] at ht
          exact absurd ht (by decide)
      · rw [lookup_processSessionStart_ne e now s hsid, h1] at h2
        injection h2 with h2
        exact subOrigin_of_eq (by rw [h2])

theorem endStale_agents_not_active (now : Nat) (ss : SessionState) :
    ∀ a ∈ (endStale now ss).agents, a.status ≠ AgentStatus.active := by
  intro a ha hact
  simp only [endStale] at ha
  obtain ⟨b, hb, hbe⟩ := List.mem_map.mp ha
  by_cases h : b.status = AgentStatus.active
  · rw [if_pos h] at hbe
    rw [← hbe] at hact
    have hact2 : AgentStatus.completed = AgentStatus.active := hact
    exact absurd hact2 (by decide)
  · rw [if_neg h] at hbe
    rw [hbe] at h
    exact h hact

theorem lookup_pruneList_char (now : Nat) (l : List (String × SessionState))
    (co : CarryStats) (used : List String) (sid : String) (ss : SessionState)
    (hnd : (l.map Prod.fst).Nodup) (hl : alookup l sid = some ss) :
    alookup (pruneList now l co used).1 sid = none ∨
    alookup (pruneList now l co used).1 sid = some ss ∨
    alookup (pruneList now l co used).1 sid = some (endStale now ss) := by
  induction l generalizing co used with
  | nil => simp [alookup] at hl
  | cons p rest ih =>
    obtain ⟨id, v⟩ := p
    simp only [List.map_cons, List.nodup_cons] at hnd
    obtain ⟨hid_notin, hnd_rest⟩ := hnd
    by_cases hid : id = sid
    · rw [alookup, if_pos hid] at hl
      injection hl with hl
      simp only [pruneList]
      split_ifs with h1 h2 h3
      · left
        apply alookup_eq_none_of_not_mem
        intro hmem
        apply hid_notin
        rw [hid]
        exact mem_keys_pruneList now rest _ _ sid hmem
      · left
        apply alookup_eq_none_of_not_mem
        intro hmem
        apply hid_notin
        rw [hid]
        exact mem_keys_pruneList now rest _ _ sid hmem
      · right; right
        rw [alookup, if_pos hid, hl]
      · right; left
        rw [alookup, if_pos hid, hl]
    · rw [alookup, if_neg hid] at hl
      simp only [pruneList]
      split_ifs with h1 h2 h3
      · exact ih _ _ hnd_rest hl
      · exact ih _ _ hnd_rest hl
      · rcases ih _ _ hnd_rest hl with h | h | h
        · left; rw [alookup, if_neg hid]; exact h
        · right; left; rw [alookup, if_neg hid]; exact h
        · right; right; rw [alookup, if_neg hid]; exact h
      · rcases ih _ _ hnd_rest hl with h | h | h
        · left; rw [alookup, if_neg hid]; exact h
        · right; left; rw [alookup, if_neg hid]; exact h
        · right; right; rw [alookup, if_neg hid]; exact h

/-- C10: once a subagent is completed it stays completed.  (a) Across any
processed event, in a reachable state (agent ids fresh and per-session
unique, session keys unique): if an agent of some session is a completed
subagent, then any same-id subagent of that session in the successor
state is not active — the claim follows because session reactivation
revives only the main agent and every other agent status change goes
from active to completed.  (b) The same holds across a pruner sweep. -/
theorem c10_subagent_stays_completed :
    (∀ (e : Event) (now : Nat) (s : WorkerState) (sid : String)
        (ss ss' : SessionState) (a a' : Agent),
      AgentIdsBelow s → AgentIdsNodup s → SessionKeysNodup s →
      alookup s.sessions sid = some ss →
      alookup (processEvent e now s).sessions sid = some ss' →
      a ∈ ss.agents → a.type = AgentType.subagent → a.status = AgentStatus.completed →
      a' ∈ ss'.agents → a'.id = a.id → a'.type = AgentType.subagent →
      a'.status ≠ AgentStatus.active) ∧
    (∀ (now : Nat) (s : WorkerState) (sid : String) (ss ss' : SessionState) (a a' : Agent),
      AgentIdsNodup s → SessionKeysNodup s →
      alookup s.sessions sid = some ss →
      alookup (pruneStaleAndEndedSessions now s).sessions sid = some ss' →
      a ∈ ss.agents → a.type = AgentType.subagent → a.status = AgentStatus.completed →
      a' ∈ ss'.agents → a'.id = a.id → a'.type = AgentType.subagent →
      a'.status ≠ AgentStatus.active) := by
  constructor
  · intro e now s sid ss ss' a a' hbel hidnd hknd h1 h2 ha hat has ha' haid hat' hact
    have horigin := subOrigin_processEvent e now s sid ss ss' hknd h1 h2
    rcases horigin a' ha' hat' hact with ⟨b, hb, hbid, hbt, hbs⟩ | hge
    · have hinj := hidnd (sid, ss) (alookup_mem h1)
      have hba : b = a := List.inj_on_of_nodup_map hinj hb ha (by rw [hbid, haid])
      rw [hba, has] at hbs
      exact absurd hbs (by decide)
    · have := hbel (sid, ss) (alookup_mem h1) a ha
      omega
  · intro now s sid ss ss' a a' hidnd hknd h1 h2 ha hat has ha' haid hat' hact
    have h2' : alookup (pruneList now s.sessions s.carryOver s.usedNames).1 sid =
        some ss' := h2
    rcases lookup_pruneList_char now s.sessions s.carryOver s.usedNames sid ss hknd h1
      with h | h | h
    · rw [h] at h2'
      simp at h2'
    · rw [h] at h2'
      injection h2' with h3
      rw [← h3] at ha'
      have hinj := hidnd (sid, ss) (alookup_mem h1)
      have hba : a' = a := List.inj_on_of_nodup_map hinj ha' ha haid
      rw [hba, has] at hact
      exact absurd hact (by decide)
    · rw [h] at h2'
      injection h2' with h3
      rw [← h3] at ha'
      exact endStale_agents_not_active now ss a' ha' hact

def wEvPostTask : Event :=
  { phase := some Phase.post, timestamp := some 2500, session_id := some "s1",
    tool_name := some "Task" }

def wT4 : WorkerState := processEvent wEvPostTask 25 wT2

def wT4SS : SessionState := (alookup wT4.sessions "s1").getD (createSessionState "s1" none "x")

def wT5 : WorkerState := processEvent wEvBash 26 wT4

def wT5SS : SessionState := (alookup wT5.sessions "s1").getD (createSessionState "s1" none "x")

def wT6 : WorkerState := pruneStaleAndEndedSessions 27 wT4

def wT6SS : SessionState := (alookup wT6.sessions "s1").getD (createSessionState "s1" none "x")

def wSubA : Agent := (wT4SS.agents.get? 1).getD wMainA

def wSubA5 : Agent := (wT5SS.agents.get? 1).getD wMainA

def wSubA6 : Agent := (wT6SS.agents.get? 1).getD wMainA

theorem c10_witness :
    (AgentIdsBelow wT4 ∧ AgentIdsNodup wT4 ∧ SessionKeysNodup wT4 ∧
      alookup wT4.sessions "s1" = some wT4SS ∧
      alookup wT5.sessions "s1" = some wT5SS ∧
      alookup wT6.sessions "s1" = some wT6SS ∧
      wSubA ∈ wT4SS.agents ∧ wSubA.type = AgentType.subagent ∧
      wSubA.status = AgentStatus.completed ∧
      wSubA5 ∈ wT5SS.agents ∧ wSubA5.id = wSubA.id ∧ wSubA5.type = AgentType.subagent ∧
      wSubA6 ∈ wT6SS.agents ∧ wSubA6.id = wSubA.id ∧ wSubA6.type = AgentType.subagent) ∧
    wSubA5.status ≠ AgentStatus.active ∧
    wSubA6.status ≠ AgentStatus.active := by
  refine ⟨⟨by decide, by decide, by decide, by decide, by decide, by decide, by decide,
    by decide, by decide, by decide, by decide, by decide, by decide, by decide,
    by decide⟩, ?_, ?_⟩
  · exact c10_subagent_stays_completed.1 wEvBash 26 wT4 "s1" wT4SS wT5SS wSubA wSubA5
      (by decide) (by decide) (by decide) (by decide) (by decide) (by decide) (by decide)
      (by decide) (by decide) (by decide) (by decide)
  · exact c10_subagent_stays_completed.2 27 wT4 "s1" wT4SS wT6SS wSubA wSubA6
      (by decide) (by decide) (by decide) (by decide) (by decide) (by decide) (by decide)
      (by decide) (by decide) (by decide)

end Monikhao
